import Mathlib

/-!
Verification development for the SMT-PNR place-and-route engine.

The definitions below are a shallow embedding of the Python sources:
  src/pnr/constraints.py      (placement and routing constraint generators)
  src/fabric/fabric.py        (Port, Track, FabricLayer, process_regs)
  src/test.py                 (the placement/routing driver)
  pnrdoctor/pnr/model_readers.py (route_model_reader)
Machine integers do not occur (Python ints are unbounded); coordinates are
modelled as Int, identifiers as Nat.  Python dicts are modelled as
association lists, Python exceptions (KeyError, AssertionError) as
Except/Option results.
-/

namespace PnR

/-- Module resource kinds, per design.module.Resource and the string
constants used in src/pnr/constraints.py. -/
inductive Resource
| pe
| mem
| reg
| io
deriving DecidableEq

/-- Port resource-or-side: the four tile sides plus the CB port resources
(spec data model: "resource-or-side").  The source stores sides and
resources in one slot of Port. -/
inductive PRes
| n
| s
| e
| w
| pe
| mem
deriving DecidableEq

/-- One component of a Python tuple used as a dict key / position:
an integer, a string (port name), or a side value. -/
inductive KElem
| num (v : Int)
| str (s : String)
| sd (r : PRes)
deriving DecidableEq

/-- A Python tuple key (position tuples, port-map keys). -/
abbrev Key := List KElem

/-- A design module: identity, resource, fused flag
(design.module; identity plays the role of Python object identity). -/
structure Module where
  mid : Nat
  resource : Resource
  fused : Bool
deriving DecidableEq

/-- A virtual net of the design graph: source/destination modules and
port names plus a bus width (spec section 6, design graph input). -/
structure Net where
  src : Module
  srcPort : String
  dst : Module
  dstPort : String
  width : Nat
deriving DecidableEq

/-- The design: modules and virtual nets. -/
structure Design where
  modules : List Module
  nets : List Net

/-- design.modules_with_attr_val('fused', False) (also design.nf_modules). -/
def Design.nfModules (d : Design) : List Module :=
  d.modules.filter (fun m => !m.fused)

/-- Modelled from the spec: the design loader (design/ package, absent from
src/) populates module.inputs with the nets whose destination is that
module (spec section 6: modules carry named input and output ports wired
by the net list). -/
def Design.inputsOf (d : Design) (m : Module) : List Net :=
  d.nets.filter (fun nt => decide (nt.dst.mid = m.mid))

/-- Association-list lookup (Python dict read; first binding wins). -/
def lookupG {κ α : Type} [DecidableEq κ] : List (κ × α) → κ → Option α
  | [], _ => none
  | (k, v) :: rest, key => if k = key then some v else lookupG rest key

/-- Association-list update (Python dict write: old binding replaced). -/
def setG {κ α : Type} [DecidableEq κ] (l : List (κ × α)) (k : κ) (v : α) :
    List (κ × α) :=
  (k, v) :: l.filter (fun e => decide (e.1 ≠ k))

/-- Remove a key (Python dict del / pop): first binding with that key. -/
def eraseG {κ α : Type} [DecidableEq κ] : List (κ × α) → κ → List (κ × α)
  | [], _ => []
  | (k, v) :: rest, key => if k = key then rest else (k, v) :: eraseG rest key

/-- Python dict.pop(key): value and remaining dict, or failure. -/
def popG {κ α : Type} [DecidableEq κ] (l : List (κ × α)) (k : κ) :
    Option (α × List (κ × α)) :=
  match lookupG l k with
  | some v => some (v, eraseG l k)
  | none => none

theorem lookupG_setG_self {κ α : Type} [DecidableEq κ]
    (l : List (κ × α)) (k : κ) (v : α) : lookupG (setG l k v) k = some v := by
  simp [setG, lookupG]

theorem lookupG_filter_ne {κ α : Type} [DecidableEq κ]
    (l : List (κ × α)) (k k' : κ) (h : k' ≠ k) :
    lookupG (l.filter (fun e => decide (e.1 ≠ k))) k' = lookupG l k' := by
  induction l with
  | nil => rfl
  | cons e rest ih =>
      rw [List.filter_cons]
      by_cases he : e.1 = k
      · rw [if_neg (by simp [he])]
        rw [ih]
        cases e with
        | mk k1 v1 =>
            simp only [lookupG]
            rw [if_neg (fun hk : k1 = k' => h (hk ▸ he))]
      · rw [if_pos (by simpa using he)]
        cases e with
        | mk k1 v1 =>
            simp only [lookupG]
            by_cases hk' : k1 = k'
            · rw [if_pos hk', if_pos hk']
            · rw [if_neg hk', if_neg hk']
              exact ih

theorem lookupG_setG_ne {κ α : Type} [DecidableEq κ]
    (l : List (κ × α)) (k k' : κ) (v : α) (h : k' ≠ k) :
    lookupG (setG l k v) k' = lookupG l k' := by
  simp only [setG, lookupG]
  rw [if_neg (fun hk => h hk.symm)]
  exact lookupG_filter_ne l k k' h

theorem lookupG_mem {κ α : Type} [DecidableEq κ]
    {l : List (κ × α)} {k : κ} {v : α} (h : lookupG l k = some v) :
    (k, v) ∈ l := by
  induction l with
  | nil => simp [lookupG] at h
  | cons e rest ih =>
      cases e with
      | mk k1 v1 =>
          by_cases hk : k1 = k
          · subst hk
            simp [lookupG] at h
            simp [h]
          · simp [lookupG, hk] at h
            exact List.mem_cons_of_mem _ (ih h)

/-! ## C9: the placement/routing driver of src/test.py -/

/-- Tags for the placement constraint generators passed to
PNR.place_design in src/test.py. -/
inductive PlaceC
| initPositions
| distinctC
| nearestNeighborC
| pinIoC
deriving DecidableEq

/-- src/test.py line 33: PLACE_CONSTRAINTS = init_positions(POSITION_T),
distinct, nearest_neighbor, pin_IO. -/
def PLACE_CONSTRAINTS : List PlaceC :=
  [PlaceC.initPositions, PlaceC.distinctC, PlaceC.nearestNeighborC, PlaceC.pinIoC]

/-- src/test.py line 34: PLACE_RELAXED = init_positions(POSITION_T),
distinct, pin_IO. -/
def PLACE_RELAXED : List PlaceC :=
  [PlaceC.initPositions, PlaceC.distinctC, PlaceC.pinIoC]

/-- Observable outcome of one run of the src/test.py driver:
process exit code, the constraint sets handed to place_design in order,
and whether route_design was ever invoked. -/
structure RunResult where
  exitCode : Nat
  placeAttempts : List (List PlaceC)
  routeAttempted : Bool
deriving DecidableEq

/-- The driver of src/test.py lines 42-58, with the solver outcomes
abstracted: placeSat says whether place_design succeeds (SAT) on a given
constraint set, routeSat whether route_design succeeds.  On strict
failure the driver retries with PLACE_RELAXED; if that also fails it
exits with code 1 before any routing; route failure also exits 1. -/
def testDriver (placeSat : List PlaceC → Bool) (routeSat : Bool) : RunResult :=
  if placeSat PLACE_CONSTRAINTS then
    { exitCode := if routeSat then 0 else 1
      placeAttempts := [PLACE_CONSTRAINTS]
      routeAttempted := true }
  else if placeSat PLACE_RELAXED then
    { exitCode := if routeSat then 0 else 1
      placeAttempts := [PLACE_CONSTRAINTS, PLACE_RELAXED]
      routeAttempted := true }
  else
    { exitCode := 1
      placeAttempts := [PLACE_CONSTRAINTS, PLACE_RELAXED]
      routeAttempted := false }

/-- C9: the driver first attempts the strict constraint set
(init_positions, distinct, nearest_neighbor, pin_IO); the relaxed set is
exactly the strict set with nearest_neighbor removed; the relaxed
attempt happens iff the strict attempt is UNSAT; and when both attempts
fail the run exits with a non-zero code without ever attempting
routing. -/
theorem driver_policy_spec (placeSat : List PlaceC → Bool) (routeSat : Bool) :
    ((testDriver placeSat routeSat).placeAttempts.head? = some PLACE_CONSTRAINTS) ∧
    (PLACE_RELAXED = PLACE_CONSTRAINTS.erase PlaceC.nearestNeighborC) ∧
    (PLACE_RELAXED ∈ (testDriver placeSat routeSat).placeAttempts ↔
      placeSat PLACE_CONSTRAINTS = false) ∧
    (placeSat PLACE_CONSTRAINTS = false → placeSat PLACE_RELAXED = false →
      (testDriver placeSat routeSat).exitCode ≠ 0 ∧
      (testDriver placeSat routeSat).routeAttempted = false) := by
  refine ⟨?_, by decide, ?_, ?_⟩
  · cases hc : placeSat PLACE_CONSTRAINTS <;>
      cases hr : placeSat PLACE_RELAXED <;>
      simp [testDriver, hc, hr]
  · cases hc : placeSat PLACE_CONSTRAINTS with
    | false =>
        cases hr : placeSat PLACE_RELAXED <;>
          simp [testDriver, hc, hr]
    | true =>
        simp [testDriver, hc]
        decide
  · intro h1 h2
    simp [testDriver, h1, h2]

/-- Witness for C9 at a concrete solver oracle: everything always UNSAT. -/
theorem driver_policy_spec_witness :
    ((fun _ => false : List PlaceC → Bool) PLACE_CONSTRAINTS = false) ∧
    ((testDriver (fun _ => false) false).exitCode ≠ 0 ∧
      (testDriver (fun _ => false) false).routeAttempted = false) :=
  ⟨rfl, (driver_policy_spec (fun _ => false) false).2.2.2 rfl rfl⟩

/-! ## C1: route_model_reader of pnrdoctor/pnr/model_readers.py -/

/-- A routed track as seen by the model reader: identity plus source and
destination port identities (Port objects of the fabric). -/
structure MTrack where
  tid : Nat
  srcPid : Nat
  dstPid : Nat
deriving DecidableEq

/-- A physical net handed to the model reader, with the satisfying path
already extracted from the solver model: the sequence of Tracks looked
up from consecutive node pairs of graph.getPath. -/
structure MNet where
  nid : Nat
  srcMid : Nat
  width : Nat
  path : List MTrack
deriving DecidableEq

/-- The key type of the invariant_check dict in route_model_reader: the
membership test `track in invariant_check` uses a Track object, while
insertions `invariant_check[track.dst] = net.src` use a Port object.
A Python dict accepts both; a Track never equals a Port. -/
abbrev IKey := Sum MTrack Nat

/-- The mutable state threaded through route_model_reader: the
invariant_check dict and the r_state records
(net id, (dst track index, src track index, bus width)). -/
structure RMState where
  invMap : List (IKey × Nat)
  rstate : List (Nat × (Nat × Nat × Nat))
deriving DecidableEq

/-- One track step of route_model_reader (model_readers.py lines 40-50):
  if track in invariant_check:
      assert net.src == invariant_check[track.dst]
  invariant_check[track.dst] = net.src
  r_state[net] = trackindex(snk=dst.index, src=track.src.index, bw=layer).
The `in` test uses the Track itself (Sum.inl); the write uses the
destination Port (Sum.inr). -/
def rmrTrackStep (srcMid nid layer : Nat) (st : RMState) (t : MTrack) :
    Except String RMState :=
  match (if (lookupG st.invMap (Sum.inl t)).isSome then
           match lookupG st.invMap (Sum.inr t.dstPid) with
           | none => Except.error ("KeyError")
           | some drv =>
               if srcMid = drv then Except.ok () else
                 Except.error ("AssertionError: two drivers")
         else Except.ok ()) with
  | Except.error s => Except.error s
  | Except.ok _ =>
      Except.ok
        { invMap := (Sum.inr t.dstPid, srcMid) :: st.invMap
          rstate := (nid, (t.dstPid, t.srcPid, layer)) :: st.rstate }

/-- The per-net inner loop over the path's tracks. -/
def rmrNetTracks (srcMid nid layer : Nat) :
    RMState → List MTrack → Except String RMState
  | st, [] => Except.ok st
  | st, t :: ts =>
      match rmrTrackStep srcMid nid layer st t with
      | Except.error s => Except.error s
      | Except.ok st2 => rmrNetTracks srcMid nid layer st2 ts

/-- The net loop of route_model_reader for the (hard-coded) 16-bit layer:
nets of another width are skipped. -/
def rmrNets : RMState → List MNet → Except String RMState
  | st, [] => Except.ok st
  | st, nt :: nts =>
      if nt.width = 16 then
        match rmrNetTracks nt.srcMid nt.nid 16 st nt.path with
        | Except.error s => Except.error s
        | Except.ok st2 => rmrNets st2 nts
      else rmrNets st nts

/-- route_model_reader (model_readers.py lines 14-50), restricted to the
state the claims observe: invariant_check and the r_state records. -/
def routeModelReader (nets : List MNet) : Except String RMState :=
  rmrNets { invMap := [], rstate := [] } nets

/-- Every key the reader ever inserts into invariant_check is a Port key. -/
def invKeysPorts (st : RMState) : Prop :=
  ∀ p ∈ st.invMap, ∃ pid : Nat, p.1 = Sum.inr pid

theorem lookupG_inl_none (l : List (IKey × Nat)) (t : MTrack)
    (h : ∀ p ∈ l, ∃ pid : Nat, p.1 = Sum.inr pid) :
    lookupG l (Sum.inl t) = none := by
  induction l with
  | nil => rfl
  | cons p rest ih =>
      obtain ⟨pid, hpid⟩ := h p (List.mem_cons_self _ _)
      cases p with
      | mk k v =>
          have hk : k = Sum.inr pid := hpid
          subst hk
          simp only [lookupG]
          rw [if_neg (by simp)]
          exact ih (fun q hq => h q (List.mem_cons_of_mem _ hq))

theorem rmrTrackStep_ok (srcMid nid layer : Nat) (st : RMState) (t : MTrack)
    (h : invKeysPorts st) :
    ∃ st2, rmrTrackStep srcMid nid layer st t = Except.ok st2 ∧ invKeysPorts st2 := by
  have hnone : lookupG st.invMap (Sum.inl t) = none := lookupG_inl_none st.invMap t h
  refine ⟨{ invMap := (Sum.inr t.dstPid, srcMid) :: st.invMap
            rstate := (nid, (t.dstPid, t.srcPid, layer)) :: st.rstate }, ?_, ?_⟩
  · simp [rmrTrackStep, hnone]
  · intro p hp
    simp only [List.mem_cons] at hp
    cases hp with
    | inl hp => exact ⟨t.dstPid, by rw [hp]⟩
    | inr hp => exact h p hp

theorem rmrNetTracks_ok (srcMid nid layer : Nat) (st : RMState)
    (ts : List MTrack) (h : invKeysPorts st) :
    ∃ st2, rmrNetTracks srcMid nid layer st ts = Except.ok st2 ∧ invKeysPorts st2 := by
  induction ts generalizing st with
  | nil => exact ⟨st, rfl, h⟩
  | cons t ts ih =>
      obtain ⟨st2, hstep, h2⟩ := rmrTrackStep_ok srcMid nid layer st t h
      obtain ⟨st3, hrec, h3⟩ := ih st2 h2
      exact ⟨st3, by simp [rmrNetTracks, hstep, hrec], h3⟩

theorem rmrNets_ok (st : RMState) (nets : List MNet) (h : invKeysPorts st) :
    ∃ st2, rmrNets st nets = Except.ok st2 := by
  induction nets generalizing st with
  | nil => exact ⟨st, rfl⟩
  | cons nt nts ih =>
      by_cases hw : nt.width = 16
      · obtain ⟨st2, htr, h2⟩ := rmrNetTracks_ok nt.srcMid nt.nid 16 st nt.path h
        obtain ⟨st3, hrec⟩ := ih st2 h2
        exact ⟨st3, by simp [rmrNets, hw, htr, hrec]⟩
      · obtain ⟨st3, hrec⟩ := ih st h
        exact ⟨st3, by simp [rmrNets, hw, hrec]⟩

/-! ## Concrete example designs used by the witnesses -/

/-- Example module: a non-fused PE. -/
def egModA : Module := { mid := 0, resource := Resource.pe, fused := false }

/-- Example module: a second non-fused PE. -/
def egModB : Module := { mid := 1, resource := Resource.pe, fused := false }

/-- Example module: a non-fused Reg. -/
def egRegA : Module := { mid := 2, resource := Resource.reg, fused := false }

/-- Example module: a second non-fused Reg. -/
def egRegB : Module := { mid := 3, resource := Resource.reg, fused := false }

/-- Example net between the two Regs. -/
def egNetRR : Net :=
  { src := egRegA, srcPort := "out", dst := egRegB, dstPort := "in", width := 16 }

/-- Example design: two PEs, two Regs, one Reg-to-Reg net. -/
def egDesign : Design :=
  { modules := [egModA, egModB, egRegA, egRegB], nets := [egNetRR] }

/-- Example net between the two PEs. -/
def egNetAB : Net :=
  { src := egModA, srcPort := "pe_out_res", dst := egModB, dstPort := "a", width := 16 }

/-- Example design with just the two PEs and the net between them. -/
def egDesign2 : Design := { modules := [egModA, egModB], nets := [egNetAB] }

/-! ## Placement constraint generators (src/pnr/constraints.py) -/

/-- Shapes of the placement constraints emitted by the generators of
src/pnr/constraints.py, with modules identified by their mid:
  neFlat          — vars[m1].flat != vars[m2].flat
  orNeFlatNeColor — Or(vars[m1].flat != vars[m2].flat, v1.c != v2.c)
  eqColor         — vars[src].c == vars[dst].c
  orDeltas        — Or over (x, y) in dxdy of And(dx(x), dy(y))
  orXYZero        — Or(pos.x == 0, pos.y == 0). -/
inductive PConstr
| neFlat (a b : Nat)
| orNeFlatNeColor (a b : Nat)
| eqColor (a b : Nat)
| orDeltas (a b : Nat) (dxdy : List (Nat × Nat))
| orXYZero (m : Nat)
deriving DecidableEq

/-- Modelled from the spec: the smt package holding BVXY is absent from
src/; per spec section 4.D a Position exposes flat (canonical coordinate
concatenation, compared for equality), a color field c, and
delta_x_fun / delta_y_fun predicates stating abs (x - x2) = k.
This is the satisfaction relation of the emitted constraints under an
assignment of x, y, color and flat values per module id. -/
def PConstr.sat (xv yv cv fv : Nat → Int) : PConstr → Prop
  | PConstr.neFlat a b => fv a ≠ fv b
  | PConstr.orNeFlatNeColor a b => fv a ≠ fv b ∨ cv a ≠ cv b
  | PConstr.eqColor a b => cv a = cv b
  | PConstr.orDeltas a b dxdy =>
      ∃ p ∈ dxdy, (xv a - xv b).natAbs = p.1 ∧ (yv a - yv b).natAbs = p.2
  | PConstr.orXYZero m => xv m = 0 ∨ yv m = 0

/-- constraints.py lines 38-51 (distinct): for every ordered pair of
distinct non-fused modules of equal resource, emit flat inequality,
relaxed by color inequality when the resource is Reg. -/
def distinctGen (d : Design) : List PConstr :=
  d.nfModules.bind (fun m1 =>
    d.nfModules.filterMap (fun m2 =>
      if m1 ≠ m2 ∧ m1.resource = m2.resource then
        some (if m1.resource = Resource.reg then
                PConstr.orNeFlatNeColor m1.mid m2.mid
              else PConstr.neFlat m1.mid m2.mid)
      else none))

/-- constraints.py lines 53-60 (register_colors): for every virtual net
with Reg source and Reg destination, equate the colors. -/
def registerColorsGen (d : Design) : List PConstr :=
  d.nets.filterMap (fun nt =>
    if nt.src.resource = nt.dst.resource ∧ nt.dst.resource = Resource.reg then
      some (PConstr.eqColor nt.src.mid nt.dst.mid)
    else none)

/-- constraints.py line 63: dxdy = ((0,1), (1,0)). -/
def nearestNeighborPairs : List (Nat × Nat) := [(0, 1), (1, 0)]

/-- constraints.py line 68: the delta pairs of neighborhood(dist),
itertools.product(range(dist+1), repeat=2) filtered by
x + y <= dist and x + y > 0. -/
def neighborhoodPairs (dist : Nat) : List (Nat × Nat) :=
  ((List.range (dist + 1)).bind
      (fun x => (List.range (dist + 1)).map (fun y => (x, y)))).filter
    (fun p => decide (p.1 + p.2 ≤ dist ∧ 0 < p.1 + p.2))

/-- The Python iterable handed to _neighborhood as dxdy:
nearest_neighbor (line 63) passes a tuple, which can be traversed once
per net; neighborhood(dist) (line 68) passes a generator expression,
which is single-use — exhausted by its first full traversal. -/
inductive DxdyIter
| tup (l : List (Nat × Nat))
| gen (l : List (Nat × Nat))
deriving DecidableEq

/-- One `for x, y in dxdy` traversal (line 80): the pairs it yields and
the iterable's state afterwards — a tuple is unchanged, a generator is
left exhausted. -/
def DxdyIter.take : DxdyIter → List (Nat × Nat) × DxdyIter
  | DxdyIter.tup l => (l, DxdyIter.tup l)
  | DxdyIter.gen l => (l, DxdyIter.gen [])

/-- The net loop of _neighborhood (constraints.py lines 71-85): per
virtual net, the disjunction over the delta pairs the dxdy traversal
yields, threading the iterable's state from net to net. -/
def neighborhoodLoop : DxdyIter → List Net → List PConstr
  | _, [] => []
  | it, nt :: rest =>
      PConstr.orDeltas nt.src.mid nt.dst.mid it.take.1 ::
        neighborhoodLoop it.take.2 rest

/-- _neighborhood applied to a whole design. -/
def neighborhoodGenF (dxdy : DxdyIter) (d : Design) : List PConstr :=
  neighborhoodLoop dxdy d.nets

/-- constraints.py lines 62-64 (nearest_neighbor): dxdy is the
re-iterable tuple ((0,1), (1,0)). -/
def nearestNeighborGen (d : Design) : List PConstr :=
  neighborhoodGenF (DxdyIter.tup nearestNeighborPairs) d

/-- constraints.py lines 67-69 (neighborhood): dxdy is a single-use
generator expression over the filtered product. -/
def neighborhoodGen (dist : Nat) (d : Design) : List PConstr :=
  neighborhoodGenF (DxdyIter.gen (neighborhoodPairs dist)) d

/-- C2: the distinct generator emits, for every pair of distinct
non-fused modules of the same resource, flat(m1) != flat(m2), except
that for Reg the emitted constraint is the relaxation
flat(m1) != flat(m2) or color(m1) != color(m2); and it emits nothing
else. -/
theorem distinct_spec (d : Design) :
    (∀ m1 m2, m1 ∈ d.nfModules → m2 ∈ d.nfModules → m1 ≠ m2 →
      m1.resource = m2.resource →
      (if m1.resource = Resource.reg then
         PConstr.orNeFlatNeColor m1.mid m2.mid
       else PConstr.neFlat m1.mid m2.mid) ∈ distinctGen d) ∧
    (∀ c ∈ distinctGen d, ∃ m1 m2, m1 ∈ d.nfModules ∧ m2 ∈ d.nfModules ∧
      m1 ≠ m2 ∧ m1.resource = m2.resource ∧
      c = (if m1.resource = Resource.reg then
             PConstr.orNeFlatNeColor m1.mid m2.mid
           else PConstr.neFlat m1.mid m2.mid)) := by
  constructor
  · intro m1 m2 h1 h2 hne hres
    refine List.mem_bind.mpr ⟨m1, h1, List.mem_filterMap.mpr ⟨m2, h2, ?_⟩⟩
    rw [if_pos ⟨hne, hres⟩]
  · intro c hc
    obtain ⟨m1, h1, hf⟩ := List.mem_bind.mp hc
    obtain ⟨m2, h2, heq⟩ := List.mem_filterMap.mp hf
    by_cases hcond : m1 ≠ m2 ∧ m1.resource = m2.resource
    · rw [if_pos hcond] at heq
      exact ⟨m1, m2, h1, h2, hcond.1, hcond.2, (Option.some.injEq _ _ ▸ heq).symm⟩
    · rw [if_neg hcond] at heq
      exact absurd heq (by simp)

/-- Witness for C2 on a concrete design with two PEs and two Regs. -/
theorem distinct_spec_witness :
    (if egModA.resource = Resource.reg then
       PConstr.orNeFlatNeColor egModA.mid egModB.mid
     else PConstr.neFlat egModA.mid egModB.mid) ∈ distinctGen egDesign ∧
    (if egRegA.resource = Resource.reg then
       PConstr.orNeFlatNeColor egRegA.mid egRegB.mid
     else PConstr.neFlat egRegA.mid egRegB.mid) ∈ distinctGen egDesign :=
  ⟨(distinct_spec egDesign).1 egModA egModB (by decide) (by decide)
      (by decide) (by decide),
   (distinct_spec egDesign).1 egRegA egRegB (by decide) (by decide)
      (by decide) (by decide)⟩

/-- C3: register_colors asserts color equality exactly for the virtual
nets whose two endpoints are both Reg modules. -/
theorem register_colors_spec (d : Design) :
    (∀ nt ∈ d.nets, nt.src.resource = Resource.reg →
      nt.dst.resource = Resource.reg →
      PConstr.eqColor nt.src.mid nt.dst.mid ∈ registerColorsGen d) ∧
    (∀ c ∈ registerColorsGen d, ∃ nt, nt ∈ d.nets ∧
      nt.src.resource = Resource.reg ∧ nt.dst.resource = Resource.reg ∧
      c = PConstr.eqColor nt.src.mid nt.dst.mid) := by
  constructor
  · intro nt hnt hs hd
    refine List.mem_filterMap.mpr ⟨nt, hnt, ?_⟩
    rw [if_pos ⟨hs.trans hd.symm, hd⟩]
  · intro c hc
    obtain ⟨nt, hnt, heq⟩ := List.mem_filterMap.mp hc
    by_cases hcond : nt.src.resource = nt.dst.resource ∧
        nt.dst.resource = Resource.reg
    · rw [if_pos hcond] at heq
      exact ⟨nt, hnt, hcond.1.trans hcond.2, hcond.2,
        (Option.some.injEq _ _ ▸ heq).symm⟩
    · rw [if_neg hcond] at heq
      exact absurd heq (by simp)

/-- Witness for C3 at the Reg-to-Reg net of the concrete design. -/
theorem register_colors_spec_witness :
    PConstr.eqColor egNetRR.src.mid egNetRR.dst.mid ∈ registerColorsGen egDesign :=
  (register_colors_spec egDesign).1 egNetRR (by decide) (by decide) (by decide)

/-- Second example net, from egModB back to egModA. -/
def egNet5b : Net :=
  { src := egModB, srcPort := "pe_out_res", dst := egModA, dstPort := "b",
    width := 16 }

/-- Example design with two virtual nets, exposing the dxdy generator
exhaustion of neighborhood(dist). -/
def egDesign5 : Design :=
  { modules := [egModA, egModB], nets := [egNetAB, egNet5b] }

/-- C5 (code bug evidence): the generator that neighborhood(2) builds
holds exactly the pairs (i, j) with 0 < i + j <= 2; nearest_neighbor —
whose dxdy is a re-iterable tuple — gives every net of a two-net
design the full (0,1),(1,0) disjunction; but neighborhood(2) passes a
single-use generator expression, exhausted while processing the first
net, so the second net receives the empty disjunction Or([]) — which
no delta assignment satisfies — instead of the radius-2 disjunction
the claim requires for every virtual net. -/
theorem neighborhood_generator_exhausted :
    (∀ i j : Nat, (i, j) ∈ neighborhoodPairs 2 ↔ 0 < i + j ∧ i + j ≤ 2) ∧
    neighborhoodPairs 2 = [(0, 1), (0, 2), (1, 0), (1, 1), (2, 0)] ∧
    nearestNeighborGen egDesign5 =
      [PConstr.orDeltas 0 1 [(0, 1), (1, 0)],
       PConstr.orDeltas 1 0 [(0, 1), (1, 0)]] ∧
    neighborhoodGen 2 egDesign5 =
      [PConstr.orDeltas 0 1 [(0, 1), (0, 2), (1, 0), (1, 1), (2, 0)],
       PConstr.orDeltas 1 0 []] ∧
    (∀ xv yv cv fv : Nat → Int, ∀ a b : Nat,
      ¬ PConstr.sat xv yv cv fv (PConstr.orDeltas a b [])) := by
  refine ⟨?_, by decide, by decide, by decide, ?_⟩
  · intro i j
    simp only [neighborhoodPairs, List.mem_filter, List.mem_bind,
      List.mem_map, List.mem_range, decide_eq_true_eq]
    constructor
    · rintro ⟨⟨x, hx, y, hy, heq⟩, h1, h2⟩
      obtain ⟨hxi, hyj⟩ := Prod.mk.injEq .. ▸ heq
      subst hxi
      subst hyj
      exact ⟨h2, h1⟩
    · rintro ⟨h0, hr⟩
      exact ⟨⟨i, by omega, j, by omega, rfl⟩, hr, h0⟩
  · intro xv yv cv fv a b h
    obtain ⟨p, hp, _⟩ := h
    exact absurd hp (List.not_mem_nil p)

/-! ## Routing constraints: positions, fabric layer, dist_limit (C4) -/

/-- A fabric Port as seen by the routing constraint generators:
identity, coordinates, resource-or-side, and the name used for graph
nodes (fabric.py Port). -/
structure FPort where
  pid : Nat
  x : Int
  y : Int
  res : PRes
  pname : String
deriving DecidableEq

/-- A fabric Track between two Ports (fabric.py Track), as read by
build_msgraph. -/
structure FTrack where
  tid : Nat
  src : FPort
  dst : FPort
deriving DecidableEq

/-- A placed position tuple as stored in PlacementState: p_state[m][0]
is the Python tuple (x, y) ++ extra, where extra is (track,) or
(track, side) for Reg modules and empty otherwise. -/
structure PPos where
  x : Int
  y : Int
  extra : Key
deriving DecidableEq

/-- The Python tuple p_state[m][0]. -/
def PPos.tuple (p : PPos) : Key :=
  KElem.num p.x :: KElem.num p.y :: p.extra

/-- The 16-bit FabricLayer as used by the routing generators:
sources and sinks keyed by position tuples, plus the track list. -/
structure RLayer where
  sources : List (Key × FPort)
  sinks : List (Key × FPort)
  tracks : List FTrack

/-- PlacementState: module id to placed position. -/
abbrev PState := List (Nat × PPos)

/-- Routing constraints emitted over the monosat graph, recorded with
the fabric Ports whose graph nodes they mention. -/
inductive RConstr
| reachesC (u v : FPort)
| notReachesC (u v : FPort)
| distLeqC (u v : FPort) (k : Int)
deriving DecidableEq

/-- Satisfaction of a routing constraint under an interpretation of the
solver graph: reach u v is the reachability term, dist u v the length
of the routed path chosen by the model (spec section 4.C). -/
def RConstr.rsat (reach : Nat → Nat → Prop) (dist : Nat → Nat → Int) :
    RConstr → Prop
  | RConstr.reachesC u v => reach u.pid v.pid
  | RConstr.notReachesC u v => ¬ reach u.pid v.pid
  | RConstr.distLeqC u v k => dist u.pid v.pid ≤ k

/-- src_index of a net: the placed position, with the source port name
appended when the source is a PE (constraints.py lines 221-224). -/
def srcIndexOf (pos : PPos) (nt : Net) : Key :=
  pos.tuple ++ (if nt.src.resource = Resource.pe then [KElem.str nt.srcPort] else [])

/-- dst_index of a net, dual to srcIndexOf (constraints.py lines 225-226). -/
def dstIndexOf (pos : PPos) (nt : Net) : Key :=
  pos.tuple ++ (if nt.dst.resource = Resource.pe then [KElem.str nt.dstPort] else [])

/-- Map a fallible function over a list, failing on the first error
(the Python loops raise on the first KeyError). -/
def mapME {α β : Type} (f : α → Except String β) : List α → Except String (List β)
  | [] => Except.ok []
  | a :: as =>
      match f a with
      | Except.error s => Except.error s
      | Except.ok b =>
          match mapME f as with
          | Except.error s => Except.error s
          | Except.ok bs => Except.ok (b :: bs)

theorem mapME_ok_mem {α β : Type} {f : α → Except String β} :
    ∀ {l : List α} {out : List β}, mapME f l = Except.ok out →
      ∀ a ∈ l, ∃ b, f a = Except.ok b ∧ b ∈ out := by
  intro l
  induction l with
  | nil => intro out _ a ha; exact absurd ha (List.not_mem_nil a)
  | cons x xs ih =>
      intro out hout a ha
      simp only [mapME] at hout
      cases hfx : f x with
      | error s => rw [hfx] at hout; exact absurd hout (by simp)
      | ok b =>
          rw [hfx] at hout
          cases hrest : mapME f xs with
          | error s => rw [hrest] at hout; exact absurd hout (by simp)
          | ok bs =>
              rw [hrest] at hout
              have hbs : out = b :: bs := by
                have := hout
                simp at this
                exact this.symm
              subst hbs
              rcases List.mem_cons.mp ha with h | h
              · exact ⟨b, h ▸ hfx, List.mem_cons_self _ _⟩
              · obtain ⟨b2, hb2, hmem⟩ := ih hrest a h
                exact ⟨b2, hb2, List.mem_cons_of_mem _ hmem⟩

/-- Example placed position of egModA. -/
def egPosA : PPos := { x := 0, y := 0, extra := [] }

/-- Example placed position of egModB, one tile to the east. -/
def egPosB : PPos := { x := 1, y := 0, extra := [] }

/-- Example placement state for egDesign2. -/
def egPState : PState := [(0, egPosA), (1, egPosB)]

/-- Example fabric port: PE output of tile (0,0). -/
def egPortOutA : FPort :=
  { pid := 0, x := 0, y := 0, res := PRes.pe, pname := "(0, 0)PE_o[pe_out_res]" }

/-- Example fabric port: PE input a of tile (1,0). -/
def egPortInB : FPort :=
  { pid := 1, x := 1, y := 0, res := PRes.pe, pname := "(1, 0)PE_i[a]" }

/-- Example fabric port: PE input b of tile (1,0). -/
def egPortInB2 : FPort :=
  { pid := 2, x := 1, y := 0, res := PRes.pe, pname := "(1, 0)PE_i[b]" }

/-- Example 16-bit layer for the two-PE design. -/
def egLayer : RLayer :=
  { sources := [([KElem.num 0, KElem.num 0, KElem.str ("pe_out_res")], egPortOutA)]
    sinks := [([KElem.num 1, KElem.num 0, KElem.str ("a")], egPortInB),
              ([KElem.num 1, KElem.num 0, KElem.str ("b")], egPortInB2)]
    tracks := [] }

/-- A Python dict read that raises KeyError when the key is absent. -/
def getE {α : Type} (o : Option α) : Except String α :=
  match o with
  | some v => Except.ok v
  | none => Except.error ("KeyError")

theorem getE_ok {α : Type} {o : Option α} {v : α} (h : getE o = Except.ok v) :
    o = some v := by
  cases o with
  | none => exact Except.noConfusion h
  | some w =>
      have hw : w = v := by simpa [getE] using h
      rw [hw]

theorem bindE_ok {α β : Type} {m : Except String α} {f : α → Except String β}
    {b : β} (h : (m >>= f) = Except.ok b) :
    ∃ a, m = Except.ok a ∧ f a = Except.ok b := by
  cases m with
  | error s => exact Except.noConfusion h
  | ok a => exact ⟨a, rfl, h⟩

theorem pureE_ok {α : Type} {a b : α}
    (h : (pure a : Except String α) = Except.ok b) : a = b := by
  simpa [pure, Except.pure] using h

/-- The per-net body of dist_limit (constraints.py lines 212-239):
positions are read from p_state, indices computed, the manhattan
distance int(abs(dx) + abs(dy)) taken on the position tuple, and the
constraint distance_leq(sources[src_index], sinks[dst_index],
3 * dist_factor * manhattan + 1) emitted. -/
def distLimitNet (F : Int) (p : PState) (lay : RLayer) (nt : Net) :
    Except String RConstr := do
  let sp ← getE (lookupG p nt.src.mid)
  let dp ← getE (lookupG p nt.dst.mid)
  let u ← getE (lookupG lay.sources (srcIndexOf sp nt))
  let v ← getE (lookupG lay.sinks (dstIndexOf dp nt))
  return RConstr.distLeqC u v
    (3 * F * (((sp.x - dp.x).natAbs + (sp.y - dp.y).natAbs : Nat) : Int) + 1)

/-- dist_limit(dist_factor) over all virtual nets (constraints.py
lines 199-242; dist_factor is statically an integer here, so the
isinstance ValueError branch cannot fire). -/
def distLimitGen (F : Int) (d : Design) (p : PState) (lay : RLayer) :
    Except String (List RConstr) :=
  mapME (distLimitNet F p lay) d.nets

/-- C4: for every virtual net, dist_limit(F) emits
distance_leq(sources[src_index], sinks[dst_index], 3*F*manhattan + 1)
with manhattan = abs (x_src - x_dst) + abs (y_src - y_dst) taken from
the placed positions; consequently, under any satisfying interpretation
whose dist term is the routed path length, that length is bounded by
3*F*manhattan + 1. -/
theorem dist_limit_spec (F : Int) (d : Design) (p : PState) (lay : RLayer)
    (cs : List RConstr) (h : distLimitGen F d p lay = Except.ok cs) :
    ∀ nt ∈ d.nets, ∃ sp dp u v,
      lookupG p nt.src.mid = some sp ∧ lookupG p nt.dst.mid = some dp ∧
      lookupG lay.sources (srcIndexOf sp nt) = some u ∧
      lookupG lay.sinks (dstIndexOf dp nt) = some v ∧
      RConstr.distLeqC u v
        (3 * F * (((sp.x - dp.x).natAbs + (sp.y - dp.y).natAbs : Nat) : Int) + 1) ∈ cs ∧
      (∀ reach dist, (∀ c ∈ cs, RConstr.rsat reach dist c) →
        dist u.pid v.pid ≤
          3 * F * (((sp.x - dp.x).natAbs + (sp.y - dp.y).natAbs : Nat) : Int) + 1) := by
  intro nt hnt
  obtain ⟨b, hb, hmem⟩ := mapME_ok_mem h nt hnt
  unfold distLimitNet at hb
  obtain ⟨sp, hsp, hb⟩ := bindE_ok hb
  obtain ⟨dp, hdp, hb⟩ := bindE_ok hb
  obtain ⟨u, hu, hb⟩ := bindE_ok hb
  obtain ⟨v, hv, hb⟩ := bindE_ok hb
  have hbeq := pureE_ok hb
  subst hbeq
  refine ⟨sp, dp, u, v, getE_ok hsp, getE_ok hdp, getE_ok hu, getE_ok hv,
    hmem, ?_⟩
  intro reach dist hall
  exact hall _ hmem

/-- Witness for C4 on a one-net design placed at distance 1. -/
theorem dist_limit_spec_witness :
    ∃ cs, distLimitGen 1 egDesign2 egPState egLayer = Except.ok cs ∧
    ∃ sp dp u v,
      lookupG egPState egNetAB.src.mid = some sp ∧
      lookupG egPState egNetAB.dst.mid = some dp ∧
      lookupG egLayer.sources (srcIndexOf sp egNetAB) = some u ∧
      lookupG egLayer.sinks (dstIndexOf dp egNetAB) = some v ∧
      RConstr.distLeqC u v
        (3 * 1 * (((sp.x - dp.x).natAbs + (sp.y - dp.y).natAbs : Nat) : Int) + 1) ∈ cs := by
  refine ⟨[RConstr.distLeqC egPortOutA egPortInB 4], by rfl, ?_⟩
  obtain ⟨sp, dp, u, v, h1, h2, h3, h4, h5, _⟩ :=
    dist_limit_spec 1 egDesign2 egPState egLayer
      [RConstr.distLeqC egPortOutA egPortInB 4] (by rfl) egNetAB (by decide)
  exact ⟨sp, dp, u, v, h1, h2, h3, h4, h5⟩

/-! ## C6: excl_constraints (constraints.py lines 101-167) -/

/-- The hardcoded PE input port set of excl_constraints:
ports = set with elements a and b. -/
def peInPorts : List String := ["a", "b"]

/-- Python set(dst_port) where dst_port is a string: the set of its
characters, each a one-character string. -/
def charStrings (s : String) : List String :=
  s.toList.map (fun c => String.mk [c])

/-- ports - set(dst_port) (constraints.py line 131). -/
def portsMinus (dstPort : String) : List String :=
  peInPorts.filter (fun q => decide (q ∉ charStrings dstPort))

/-- Map a fallible list-valued function over a list and concatenate,
failing on the first error. -/
def flatMapME {α β : Type} (f : α → Except String (List β)) :
    List α → Except String (List β)
  | [] => Except.ok []
  | a :: as =>
      match f a with
      | Except.error s => Except.error s
      | Except.ok bs =>
          match flatMapME f as with
          | Except.error s => Except.error s
          | Except.ok rest => Except.ok (bs ++ rest)

theorem flatMapME_ok_mem {α β : Type} {f : α → Except String (List β)} :
    ∀ {l : List α} {out : List β}, flatMapME f l = Except.ok out →
      ∀ a ∈ l, ∃ ys, f a = Except.ok ys ∧ ∀ y ∈ ys, y ∈ out := by
  intro l
  induction l with
  | nil => intro out _ a ha; exact absurd ha (List.not_mem_nil a)
  | cons x xs ih =>
      intro out hout a ha
      simp only [flatMapME] at hout
      cases hfx : f x with
      | error s => rw [hfx] at hout; exact absurd hout (by simp)
      | ok bs =>
          rw [hfx] at hout
          cases hrest : flatMapME f xs with
          | error s => rw [hrest] at hout; exact absurd hout (by simp)
          | ok rest =>
              rw [hrest] at hout
              have hout2 : out = bs ++ rest := by simpa using hout.symm
              subst hout2
              rcases List.mem_cons.mp ha with hax | hax
              · refine ⟨bs, ?_, fun y hy => List.mem_append_left _ hy⟩
                rw [hax]
                exact hfx
              · obtain ⟨ys, hys, hsub⟩ := ih hrest a hax
                exact ⟨ys, hys,
                  fun y hy => List.mem_append_right _ (hsub y hy)⟩

/-- The first excl_constraints loop body (lines 115-134): for a
connected net, when the destination is a PE, forbid reaching every
input port of the destination other than the characters of dst_port. -/
def exclNet (p : PState) (lay : RLayer) (nt : Net) :
    Except String (List RConstr) := do
  let srcPos ← getE (lookupG p nt.src.mid)
  let dstPos ← getE (lookupG p nt.dst.mid)
  if nt.dst.resource = Resource.pe then
    mapME (fun port => do
      let u ← getE (lookupG lay.sources (srcIndexOf srcPos nt))
      let v ← getE (lookupG lay.sinks (dstPos.tuple ++ [KElem.str port]))
      return RConstr.notReachesC u v) (portsMinus nt.dstPort)
  else
    return []

/-- The contraction loop of excl_constraints (lines 139-150): each fused
input source is replaced by the source of its single input net (the
assert requires at most one), a fused source with no input is dropped,
and non-fused sources are kept. -/
def contractedGo (d : Design) : List Module → Except String (List Module)
  | [] => Except.ok []
  | src :: rest =>
      if src.fused = true then
        if (d.inputsOf src).length ≤ 1 then
          match d.inputsOf src with
          | [] => contractedGo d rest
          | n :: _ => do
              let r ← contractedGo d rest
              return n.src :: r
        else Except.error ("AssertionError")
      else do
        let r ← contractedGo d rest
        return src :: r

/-- inputs = the set of sources of m1's input nets, then contracted
one step through fused producers (lines 139-150). -/
def contractedInputs (d : Design) (m1 : Module) : Except String (List Module) :=
  contractedGo d (((d.inputsOf m1).map Net.src).dedup)

/-- m2_index: position of m2, with out appended when m2 is a PE
(lines 154-157). -/
def m2IndexOf (pos : PPos) (m2 : Module) : Key :=
  pos.tuple ++ (if m2.resource = Resource.pe then [KElem.str ("out")] else [])

/-- The inner loop body of the second excl_constraints part
(lines 152-165): forbid m2's output from reaching each of m1's input
sinks — ports a and b when m1 is a PE, the bare position otherwise. -/
def exclPairNet (p : PState) (lay : RLayer) (m1 : Module) (m1pos : PPos)
    (m2 : Module) : Except String (List RConstr) := do
  let m2pos ← getE (lookupG p m2.mid)
  if m1.resource = Resource.pe then
    mapME (fun port => do
      let u ← getE (lookupG lay.sources (m2IndexOf m2pos m2))
      let v ← getE (lookupG lay.sinks (m1pos.tuple ++ [KElem.str port]))
      return RConstr.notReachesC u v) peInPorts
  else do
    let u ← getE (lookupG lay.sources (m2IndexOf m2pos m2))
    let v ← getE (lookupG lay.sinks m1pos.tuple)
    return [RConstr.notReachesC u v]

/-- The second excl_constraints part for one m1 (lines 138-165). -/
def exclPart2One (d : Design) (p : PState) (lay : RLayer) (m1 : Module) :
    Except String (List RConstr) := do
  let ci ← contractedInputs d m1
  let m1pos ← getE (lookupG p m1.mid)
  flatMapME (fun m2 =>
    if m2 ≠ m1 ∧ m2 ∉ ci then exclPairNet p lay m1 m1pos m2
    else return []) d.nfModules

/-- excl_constraints (lines 101-167): the connected-net part followed by
the unconnected-pair part. -/
def exclGen (d : Design) (p : PState) (lay : RLayer) :
    Except String (List RConstr) := do
  let c1 ← flatMapME (exclNet p lay) d.nets
  let c2 ← flatMapME (exclPart2One d p lay) d.nfModules
  return c1 ++ c2

/-- m2 drives m1 through a chain of fused intermediaries: either a net
m2 -> m1 directly, or a net f -> m1 with f fused and m2 chained into f.
This is the fused-chain-collapsed input relation of the spec. -/
inductive FusedChain (d : Design) : Module → Module → Prop
| direct {m1 m2 : Module} (nt : Net) (hnt : nt ∈ d.nets)
    (hdst : nt.dst.mid = m1.mid) (hsrc : nt.src = m2) : FusedChain d m2 m1
| step {m1 m2 : Module} (nt : Net) (hnt : nt ∈ d.nets)
    (hdst : nt.dst.mid = m1.mid) (hfused : nt.src.fused = true)
    (hch : FusedChain d m2 nt.src) : FusedChain d m2 m1

theorem contractedGo_mem (d : Design) :
    ∀ (srcs out : List Module), contractedGo d srcs = Except.ok out →
      ∀ m2 ∈ out, ∃ src ∈ srcs,
        (m2 = src) ∨
        (src.fused = true ∧ ∃ n ∈ d.inputsOf src, m2 = n.src) := by
  intro srcs
  induction srcs with
  | nil =>
      intro out hout m2 hm2
      have hnil : ([] : List Module) = out := by simpa [contractedGo] using hout
      rw [← hnil] at hm2
      exact absurd hm2 (List.not_mem_nil m2)
  | cons src rest ih =>
      intro out hout m2 hm2
      simp only [contractedGo] at hout
      by_cases hf : src.fused = true
      · rw [if_pos hf] at hout
        by_cases hlen : (d.inputsOf src).length ≤ 1
        · rw [if_pos hlen] at hout
          cases hin : d.inputsOf src with
          | nil =>
              rw [hin] at hout
              obtain ⟨src2, hs2, hcase⟩ := ih out hout m2 hm2
              exact ⟨src2, List.mem_cons_of_mem _ hs2, hcase⟩
          | cons n ns =>
              rw [hin] at hout
              obtain ⟨r, hr, hout2⟩ := bindE_ok hout
              have hmem2 : m2 ∈ n.src :: r := by
                rw [pureE_ok hout2]
                exact hm2
              rcases List.mem_cons.mp hmem2 with hcase | hcase
              · refine ⟨src, List.mem_cons_self _ _, Or.inr ⟨hf, n, ?_, hcase⟩⟩
                rw [hin]
                exact List.mem_cons_self _ _
              · obtain ⟨src2, hs2, hc⟩ := ih r hr m2 hcase
                exact ⟨src2, List.mem_cons_of_mem _ hs2, hc⟩
        · rw [if_neg hlen] at hout
          exact absurd hout (by simp)
      · rw [if_neg hf] at hout
        obtain ⟨r, hr, hout2⟩ := bindE_ok hout
        have hmem2 : m2 ∈ src :: r := by
          rw [pureE_ok hout2]
          exact hm2
        rcases List.mem_cons.mp hmem2 with hcase | hcase
        · exact ⟨src, List.mem_cons_self _ _, Or.inl hcase⟩
        · obtain ⟨src2, hs2, hc⟩ := ih r hr m2 hcase
          exact ⟨src2, List.mem_cons_of_mem _ hs2, hc⟩

theorem contracted_mem_chain (d : Design) (m1 : Module) (ci : List Module)
    (h : contractedInputs d m1 = Except.ok ci) :
    ∀ m2 ∈ ci, FusedChain d m2 m1 := by
  intro m2 hm2
  obtain ⟨src, hsrc, hcase⟩ := contractedGo_mem d _ ci h m2 hm2
  rw [List.mem_dedup] at hsrc
  obtain ⟨nt, hnt0, hnts⟩ := List.mem_map.mp hsrc
  have hnt1 := List.mem_filter.mp hnt0
  have hdst : nt.dst.mid = m1.mid := by simpa using hnt1.2
  rcases hcase with hm | ⟨hf, n, hn, hm⟩
  · rw [hm]
    exact FusedChain.direct nt hnt1.1 hdst hnts
  · have hn2 := List.mem_filter.mp hn
    rw [hm]
    refine FusedChain.step nt hnt1.1 hdst (by rw [hnts]; exact hf) ?_
    refine FusedChain.direct n hn2.1 ?_ rfl
    rw [hnts]
    simpa using hn2.2

theorem mem_portsMinus {port dstPort : String}
    (hd : dstPort ∈ peInPorts) (hp : port ∈ peInPorts)
    (hne : port ≠ dstPort) : port ∈ portsMinus dstPort := by
  simp only [peInPorts, List.mem_cons, List.not_mem_nil, or_false] at hd hp
  rcases hd with hd | hd <;> rcases hp with hp | hp <;> subst hd <;> subst hp
  · exact absurd rfl hne
  · decide
  · decide
  · exact absurd rfl hne

/-- C6: excl_constraints emits (1) for every net into a PE destination,
non-reachability from the net's placed source port to each destination
input port other than the net's dst_port, over the PE input port set
a, b; and (2) for every ordered pair of distinct non-fused modules
(m1, m2) with m2 not an input of m1 after contracting fused producer
chains, non-reachability from m2's output source port to each of m1's
input sink ports (ports a and b when m1 is a PE, its bare position
key otherwise). -/
theorem excl_constraints_spec (d : Design) (p : PState) (lay : RLayer)
    (cs : List RConstr) (h : exclGen d p lay = Except.ok cs) :
    (∀ nt ∈ d.nets, nt.dst.resource = Resource.pe →
      nt.dstPort ∈ peInPorts →
      ∀ port ∈ peInPorts, port ≠ nt.dstPort →
      ∃ sp dp u v,
        lookupG p nt.src.mid = some sp ∧ lookupG p nt.dst.mid = some dp ∧
        lookupG lay.sources (srcIndexOf sp nt) = some u ∧
        lookupG lay.sinks (dp.tuple ++ [KElem.str port]) = some v ∧
        RConstr.notReachesC u v ∈ cs) ∧
    (∀ m1 ∈ d.nfModules, ∀ m2 ∈ d.nfModules, m2 ≠ m1 →
      ¬ FusedChain d m2 m1 →
      ∃ p1 p2,
        lookupG p m1.mid = some p1 ∧ lookupG p m2.mid = some p2 ∧
        ((m1.resource = Resource.pe →
          ∀ port ∈ peInPorts, ∃ u v,
            lookupG lay.sources (m2IndexOf p2 m2) = some u ∧
            lookupG lay.sinks (p1.tuple ++ [KElem.str port]) = some v ∧
            RConstr.notReachesC u v ∈ cs) ∧
         (m1.resource ≠ Resource.pe →
          ∃ u v,
            lookupG lay.sources (m2IndexOf p2 m2) = some u ∧
            lookupG lay.sinks p1.tuple = some v ∧
            RConstr.notReachesC u v ∈ cs))) := by
  unfold exclGen at h
  obtain ⟨c1, hc1, h⟩ := bindE_ok h
  obtain ⟨c2, hc2, h⟩ := bindE_ok h
  have hcs := pureE_ok h
  subst hcs
  constructor
  · intro nt hnt hpe hdp port hport hne
    obtain ⟨ys, hys, hsub⟩ := flatMapME_ok_mem hc1 nt hnt
    unfold exclNet at hys
    obtain ⟨sp, hsp, hys⟩ := bindE_ok hys
    obtain ⟨dp, hdpos, hys⟩ := bindE_ok hys
    rw [if_pos hpe] at hys
    obtain ⟨b, hb, hbmem⟩ :=
      mapME_ok_mem hys port (mem_portsMinus hdp hport hne)
    obtain ⟨u, hu, hb⟩ := bindE_ok hb
    obtain ⟨v, hv, hb⟩ := bindE_ok hb
    have hbeq := pureE_ok hb
    refine ⟨sp, dp, u, v, getE_ok hsp, getE_ok hdpos, getE_ok hu,
      getE_ok hv, ?_⟩
    rw [hbeq]
    exact List.mem_append_left _ (hsub b hbmem)
  · intro m1 hm1 m2 hm2 hne hchain
    obtain ⟨ys, hys, hsub⟩ := flatMapME_ok_mem hc2 m1 hm1
    unfold exclPart2One at hys
    obtain ⟨ci, hci, hys⟩ := bindE_ok hys
    obtain ⟨p1, hp1, hys⟩ := bindE_ok hys
    obtain ⟨zs, hzs, hzsub⟩ := flatMapME_ok_mem hys m2 hm2
    have hnotin : m2 ∉ ci := fun hin =>
      hchain (contracted_mem_chain d m1 ci hci m2 hin)
    rw [if_pos ⟨hne, hnotin⟩] at hzs
    unfold exclPairNet at hzs
    obtain ⟨p2, hp2, hzs⟩ := bindE_ok hzs
    refine ⟨p1, p2, getE_ok hp1, getE_ok hp2, ?_, ?_⟩
    · intro hm1pe port hport
      rw [if_pos hm1pe] at hzs
      obtain ⟨b, hb, hbmem⟩ := mapME_ok_mem hzs port hport
      obtain ⟨u, hu, hb⟩ := bindE_ok hb
      obtain ⟨v, hv, hb⟩ := bindE_ok hb
      have hbeq := pureE_ok hb
      refine ⟨u, v, getE_ok hu, getE_ok hv, ?_⟩
      rw [hbeq]
      exact List.mem_append_right _ (hsub b (hzsub b hbmem))
    · intro hm1npe
      rw [if_neg hm1npe] at hzs
      obtain ⟨u, hu, hzs⟩ := bindE_ok hzs
      obtain ⟨v, hv, hzs⟩ := bindE_ok hzs
      have hbeq := pureE_ok hzs
      refine ⟨u, v, getE_ok hu, getE_ok hv, ?_⟩
      have : RConstr.notReachesC u v ∈ zs := by
        rw [← hbeq]
        exact List.mem_cons_self _ _
      exact List.mem_append_right _ (hsub _ (hzsub _ this))

/-- Example fabric port: PE output of tile (1,0) under the out key. -/
def egPortOutB : FPort :=
  { pid := 3, x := 1, y := 0, res := PRes.pe, pname := "(1, 0)PE_o[out]" }

/-- Example fabric port: PE input a of tile (0,0). -/
def egPortInA1 : FPort :=
  { pid := 4, x := 0, y := 0, res := PRes.pe, pname := "(0, 0)PE_i[a]" }

/-- Example fabric port: PE input b of tile (0,0). -/
def egPortInA2 : FPort :=
  { pid := 5, x := 0, y := 0, res := PRes.pe, pname := "(0, 0)PE_i[b]" }

/-- Example 16-bit layer rich enough for excl_constraints on egDesign2. -/
def egLayer6 : RLayer :=
  { sources := [([KElem.num 0, KElem.num 0, KElem.str ("pe_out_res")], egPortOutA),
                ([KElem.num 1, KElem.num 0, KElem.str ("out")], egPortOutB),
                ([KElem.num 0, KElem.num 0, KElem.str ("out")], egPortOutA)]
    sinks := [([KElem.num 1, KElem.num 0, KElem.str ("a")], egPortInB),
              ([KElem.num 1, KElem.num 0, KElem.str ("b")], egPortInB2),
              ([KElem.num 0, KElem.num 0, KElem.str ("a")], egPortInA1),
              ([KElem.num 0, KElem.num 0, KElem.str ("b")], egPortInA2)]
    tracks := [] }

theorem egNoChainBA : ¬ FusedChain egDesign2 egModB egModA := by
  intro h
  cases h with
  | direct nt hnt hdst hsrc =>
      have hnt2 : nt = egNetAB := by simpa [egDesign2] using hnt
      rw [hnt2] at hdst
      exact absurd hdst (by decide)
  | step nt hnt hdst hfused hch =>
      have hnt2 : nt = egNetAB := by simpa [egDesign2] using hnt
      rw [hnt2] at hdst
      exact absurd hdst (by decide)

/-- Witness for C6: the pair (egModA, egModB) — B is not an input of A —
receives its non-reachability constraints on the concrete layer. -/
theorem excl_constraints_spec_witness :
    ∃ cs, exclGen egDesign2 egPState egLayer6 = Except.ok cs ∧
      ∃ p1 p2,
        lookupG egPState egModA.mid = some p1 ∧
        lookupG egPState egModB.mid = some p2 ∧
        ((egModA.resource = Resource.pe →
          ∀ port ∈ peInPorts, ∃ u v,
            lookupG egLayer6.sources (m2IndexOf p2 egModB) = some u ∧
            lookupG egLayer6.sinks (p1.tuple ++ [KElem.str port]) = some v ∧
            RConstr.notReachesC u v ∈ cs) ∧
         (egModA.resource ≠ Resource.pe →
          ∃ u v,
            lookupG egLayer6.sources (m2IndexOf p2 egModB) = some u ∧
            lookupG egLayer6.sinks p1.tuple = some v ∧
            RConstr.notReachesC u v ∈ cs)) := by
  obtain ⟨cs, hcs⟩ : ∃ cs, exclGen egDesign2 egPState egLayer6 = Except.ok cs :=
    ⟨_, rfl⟩
  refine ⟨cs, hcs, ?_⟩
  exact (excl_constraints_spec egDesign2 egPState egLayer6 cs hcs).2
    egModA (by decide) egModB (by decide) (by decide) egNoChainBA

/-! ## Fabric arena: Ports and Tracks with mutable references (C7, C10) -/

/-- The mutable attributes of a fabric Port (fabric.py Port): location,
resource-or-side, track-or-name, direction, and the inputs/outputs
Track reference sets. -/
structure PortData where
  x : Int
  y : Int
  res : PRes
  trk : KElem
  direction : String
  inputs : List Nat
  outputs : List Nat
deriving DecidableEq

/-- The mutable attributes of a Track (fabric.py Track): the referenced
source and destination Port ids and the bus width. -/
structure TrackE where
  srcP : Nat
  dstP : Nat
  width : Nat
deriving DecidableEq

/-- The Port/Track object arena: the id counter (classutil _object_id)
and the live objects, referenced by id. -/
structure Arena where
  nextId : Nat
  pports : List (Nat × PortData)
  ptracks : List (Nat × TrackE)
deriving DecidableEq

theorem bindO_ok {α β : Type} {m : Option α} {f : α → Option β} {b : β}
    (h : (m >>= f) = some b) : ∃ a, m = some a ∧ f a = some b := by
  cases m with
  | none => exact Option.noConfusion h
  | some a => exact ⟨a, rfl, h⟩

/-- Track.__init__ (fabric.py lines 87-93): a fresh Track between two
existing ports inserts itself into src.outputs and then dst.inputs. -/
def addTrack (ar : Arena) (srcPid dstPid w : Nat) : Option Arena := do
  let sp ← lookupG ar.pports srcPid
  let tid := ar.nextId
  let ports1 := setG ar.pports srcPid { sp with outputs := tid :: sp.outputs }
  let dp ← lookupG ports1 dstPid
  let ports2 := setG ports1 dstPid { dp with inputs := tid :: dp.inputs }
  some { nextId := tid + 1, pports := ports2,
         ptracks := setG ar.ptracks tid ⟨srcPid, dstPid, w⟩ }

/-- Modelled from the spec: fabricfuns.mapSide is absent from src/;
per spec section 4.B step 3 the receiving tile and side follow the
fixed table N-S and E-W on adjacent tiles.  Non-side resources have no
neighbor. -/
def mapSideF (x y : Int) (r : PRes) : Option (Int × Int × PRes) :=
  match r with
  | PRes.n => some (x, y - 1, PRes.s)
  | PRes.s => some (x, y + 1, PRes.n)
  | PRes.e => some (x + 1, y, PRes.w)
  | PRes.w => some (x - 1, y, PRes.e)
  | _ => none

/-- One iteration of `for track in inport.outputs: track._src = inport`. -/
def rebindSrcStep (ns : Nat) (tr : List (Nat × TrackE)) (t : Nat) :
    List (Nat × TrackE) :=
  match lookupG tr t with
  | some e => setG tr t { e with srcP := ns }
  | none => tr

/-- Rebind the src reference of the listed track ids to the new port. -/
def rebindSrcs (ns : Nat) : List Nat → List (Nat × TrackE) → List (Nat × TrackE)
  | [], tr => tr
  | t :: ts, tr => rebindSrcs ns ts (rebindSrcStep ns tr t)

/-- One iteration of `for track in outport.inputs: track._dst = outport`. -/
def rebindDstStep (nd : Nat) (tr : List (Nat × TrackE)) (t : Nat) :
    List (Nat × TrackE) :=
  match lookupG tr t with
  | some e => setG tr t { e with dstP := nd }
  | none => tr

/-- Rebind the dst reference of the listed track ids to the new port. -/
def rebindDsts (nd : Nat) : List Nat → List (Nat × TrackE) → List (Nat × TrackE)
  | [], tr => tr
  | t :: ts, tr => rebindDsts nd ts (rebindDstStep nd tr t)

/-- Port.split (fabric.py lines 63-73): create the register in-port at
the same location carrying the original port's outgoing tracks (each
rebound to it), then the register out-port on the neighboring tile per
mapSide, carrying the original incoming tracks (each rebound to it);
returns (arena, outport id, inport id). -/
def splitPort (ar : Arena) (origPid : Nat) : Option (Arena × Nat × Nat) := do
  let orig ← lookupG ar.pports origPid
  let inPid := ar.nextId
  let inPort : PortData :=
    { x := orig.x, y := orig.y, res := orig.res, trk := orig.trk,
      direction := "regi", inputs := [], outputs := orig.outputs }
  let tr1 := rebindSrcs inPid orig.outputs ar.ptracks
  let os ← mapSideF orig.x orig.y orig.res
  let outPid := ar.nextId + 1
  let outPort : PortData :=
    { x := os.1, y := os.2.1, res := os.2.2, trk := orig.trk,
      direction := "rego", inputs := orig.inputs, outputs := [] }
  let tr2 := rebindDsts outPid orig.inputs tr1
  some ({ nextId := ar.nextId + 2,
          pports := setG (setG ar.pports inPid inPort) outPid outPort,
          ptracks := tr2 }, outPid, inPid)

/-- The Track consistency invariant: every live Track is a member of
its source port's outputs and of its destination port's inputs. -/
def ArInv (ar : Arena) : Prop :=
  ∀ tid e, lookupG ar.ptracks tid = some e →
    (∃ pd, lookupG ar.pports e.srcP = some pd ∧ tid ∈ pd.outputs) ∧
    (∃ pd, lookupG ar.pports e.dstP = some pd ∧ tid ∈ pd.inputs)

/-- Arena well-formedness: live port ids are below the id counter, so a
fresh id never collides with a live port. -/
def ArWF (ar : Arena) : Prop :=
  ∀ q ∈ ar.pports, q.1 < ar.nextId

theorem rebindSrcs_lookup_none {ns tid : Nat} :
    ∀ (tids : List Nat) (tr : List (Nat × TrackE)),
      lookupG tr tid = none → lookupG (rebindSrcs ns tids tr) tid = none := by
  intro tids
  induction tids with
  | nil => intro tr h; exact h
  | cons t ts ih =>
      intro tr h
      simp only [rebindSrcs]
      apply ih
      unfold rebindSrcStep
      cases hlt : lookupG tr t with
      | none => exact h
      | some e =>
          have hne : tid ≠ t := by
            intro hh
            rw [hh, hlt] at h
            exact Option.noConfusion h
          rw [lookupG_setG_ne _ _ _ _ hne]
          exact h

theorem rebindSrcs_lookup_some (ns : Nat) {tid : Nat} :
    ∀ (tids : List Nat) (tr : List (Nat × TrackE)) (e : TrackE),
      lookupG tr tid = some e →
      lookupG (rebindSrcs ns tids tr) tid =
        some (if tid ∈ tids then { e with srcP := ns } else e) := by
  intro tids
  induction tids with
  | nil =>
      intro tr e h
      simpa [rebindSrcs] using h
  | cons t ts ih =>
      intro tr e h
      simp only [rebindSrcs]
      by_cases htt : tid = t
      · subst htt
        have hstep : rebindSrcStep ns tr tid = setG tr tid { e with srcP := ns } := by
          unfold rebindSrcStep
          rw [h]
        rw [hstep]
        have h2 : lookupG (setG tr tid { e with srcP := ns }) tid =
            some { e with srcP := ns } := lookupG_setG_self _ _ _
        rw [ih _ _ h2]
        have hred : (if tid ∈ ts then
              { { e with srcP := ns } with srcP := ns }
            else { e with srcP := ns }) = { e with srcP := ns } := by
          split <;> rfl
        rw [hred, if_pos (List.mem_cons_self _ _)]
      · have hstep : lookupG (rebindSrcStep ns tr t) tid = some e := by
          unfold rebindSrcStep
          cases hlt : lookupG tr t with
          | none => exact h
          | some e2 =>
              rw [lookupG_setG_ne _ _ _ _ htt]
              exact h
        rw [ih _ _ hstep]
        by_cases hts : tid ∈ ts
        · rw [if_pos hts, if_pos (List.mem_cons_of_mem _ hts)]
        · rw [if_neg hts, if_neg (fun hc => by
            rcases List.mem_cons.mp hc with hc | hc
            · exact htt hc
            · exact hts hc)]

theorem rebindDsts_lookup_none {nd tid : Nat} :
    ∀ (tids : List Nat) (tr : List (Nat × TrackE)),
      lookupG tr tid = none → lookupG (rebindDsts nd tids tr) tid = none := by
  intro tids
  induction tids with
  | nil => intro tr h; exact h
  | cons t ts ih =>
      intro tr h
      simp only [rebindDsts]
      apply ih
      unfold rebindDstStep
      cases hlt : lookupG tr t with
      | none => exact h
      | some e =>
          have hne : tid ≠ t := by
            intro hh
            rw [hh, hlt] at h
            exact Option.noConfusion h
          rw [lookupG_setG_ne _ _ _ _ hne]
          exact h

theorem rebindDsts_lookup_some (nd : Nat) {tid : Nat} :
    ∀ (tids : List Nat) (tr : List (Nat × TrackE)) (e : TrackE),
      lookupG tr tid = some e →
      lookupG (rebindDsts nd tids tr) tid =
        some (if tid ∈ tids then { e with dstP := nd } else e) := by
  intro tids
  induction tids with
  | nil =>
      intro tr e h
      simpa [rebindDsts] using h
  | cons t ts ih =>
      intro tr e h
      simp only [rebindDsts]
      by_cases htt : tid = t
      · subst htt
        have hstep : rebindDstStep nd tr tid = setG tr tid { e with dstP := nd } := by
          unfold rebindDstStep
          rw [h]
        rw [hstep]
        have h2 : lookupG (setG tr tid { e with dstP := nd }) tid =
            some { e with dstP := nd } := lookupG_setG_self _ _ _
        rw [ih _ _ h2]
        have hred : (if tid ∈ ts then
              { { e with dstP := nd } with dstP := nd }
            else { e with dstP := nd }) = { e with dstP := nd } := by
          split <;> rfl
        rw [hred, if_pos (List.mem_cons_self _ _)]
      · have hstep : lookupG (rebindDstStep nd tr t) tid = some e := by
          unfold rebindDstStep
          cases hlt : lookupG tr t with
          | none => exact h
          | some e2 =>
              rw [lookupG_setG_ne _ _ _ _ htt]
              exact h
        rw [ih _ _ hstep]
        by_cases hts : tid ∈ ts
        · rw [if_pos hts, if_pos (List.mem_cons_of_mem _ hts)]
        · rw [if_neg hts, if_neg (fun hc => by
            rcases List.mem_cons.mp hc with hc | hc
            · exact htt hc
            · exact hts hc)]

theorem addTrack_new {ar ar2 : Arena} {s dPid w : Nat}
    (h : addTrack ar s dPid w = some ar2) :
    (∃ sp, lookupG ar2.pports s = some sp ∧ ar.nextId ∈ sp.outputs) ∧
    (∃ dp, lookupG ar2.pports dPid = some dp ∧ ar.nextId ∈ dp.inputs) ∧
    lookupG ar2.ptracks ar.nextId = some ⟨s, dPid, w⟩ := by
  unfold addTrack at h
  obtain ⟨sp, hsp, h⟩ := bindO_ok h
  obtain ⟨dp, hdp, h⟩ := bindO_ok h
  rw [Option.some.injEq] at h
  subst h
  refine ⟨?_, ⟨{ dp with inputs := ar.nextId :: dp.inputs },
    lookupG_setG_self _ _ _, List.mem_cons_self _ _⟩,
    lookupG_setG_self _ _ _⟩
  by_cases hsd : s = dPid
  · subst hsd
    rw [lookupG_setG_self] at hdp
    have hA : { sp with outputs := ar.nextId :: sp.outputs } = dp :=
      Option.some_inj.mp hdp
    refine ⟨_, lookupG_setG_self _ _ _, ?_⟩
    rw [← hA]
    exact List.mem_cons_self _ _
  · refine ⟨{ sp with outputs := ar.nextId :: sp.outputs }, ?_,
      List.mem_cons_self _ _⟩
    rw [lookupG_setG_ne _ _ _ _ hsd]
    exact lookupG_setG_self _ _ _

theorem addTrack_mono {ar ar2 : Arena} {s dPid w : Nat}
    (h : addTrack ar s dPid w = some ar2) :
    ∀ pid pd, lookupG ar.pports pid = some pd →
      ∃ pd2, lookupG ar2.pports pid = some pd2 ∧
        (∀ t ∈ pd.outputs, t ∈ pd2.outputs) ∧
        (∀ t ∈ pd.inputs, t ∈ pd2.inputs) := by
  unfold addTrack at h
  obtain ⟨sp, hsp, h⟩ := bindO_ok h
  obtain ⟨dp, hdp, h⟩ := bindO_ok h
  rw [Option.some.injEq] at h
  subst h
  intro pid pd hpd
  by_cases hpdst : pid = dPid
  · subst hpdst
    refine ⟨{ dp with inputs := ar.nextId :: dp.inputs },
      lookupG_setG_self _ _ _, ?_, ?_⟩
    · by_cases hps : pid = s
      · subst hps
        rw [lookupG_setG_self] at hdp
        have hA : { sp with outputs := ar.nextId :: sp.outputs } = dp :=
          Option.some_inj.mp hdp
        have hsppd : sp = pd := by
          rw [hsp] at hpd
          exact Option.some_inj.mp hpd
        intro t ht
        rw [← hA]
        subst hsppd
        exact List.mem_cons_of_mem _ ht
      · rw [lookupG_setG_ne _ _ _ _ hps] at hdp
        have hdppd : dp = pd := by
          rw [hpd] at hdp
          exact (Option.some_inj.mp hdp).symm
        intro t ht
        rw [hdppd]
        exact ht
    · by_cases hps : pid = s
      · subst hps
        rw [lookupG_setG_self] at hdp
        have hA : { sp with outputs := ar.nextId :: sp.outputs } = dp :=
          Option.some_inj.mp hdp
        have hsppd : sp = pd := by
          rw [hsp] at hpd
          exact Option.some_inj.mp hpd
        intro t ht
        apply List.mem_cons_of_mem
        rw [← hA]
        subst hsppd
        exact ht
      · rw [lookupG_setG_ne _ _ _ _ hps] at hdp
        have hdppd : dp = pd := by
          rw [hpd] at hdp
          exact (Option.some_inj.mp hdp).symm
        intro t ht
        apply List.mem_cons_of_mem
        rw [hdppd]
        exact ht
  · rw [lookupG_setG_ne _ _ _ _ hpdst]
    by_cases hps : pid = s
    · subst hps
      have hsppd : sp = pd := by
        rw [hsp] at hpd
        exact Option.some_inj.mp hpd
      refine ⟨{ sp with outputs := ar.nextId :: sp.outputs },
        lookupG_setG_self _ _ _, ?_, ?_⟩
      · intro t ht
        apply List.mem_cons_of_mem
        rw [hsppd]
        exact ht
      · intro t ht
        rw [hsppd]
        exact ht
    · rw [lookupG_setG_ne _ _ _ _ hps]
      exact ⟨pd, hpd, fun t ht => ht, fun t ht => ht⟩

theorem addTrack_inv {ar ar2 : Arena} {s dPid w : Nat}
    (h : addTrack ar s dPid w = some ar2) (hinv : ArInv ar) : ArInv ar2 := by
  have hnew := addTrack_new h
  have hmono := addTrack_mono h
  have htr : ar2.ptracks = setG ar.ptracks ar.nextId ⟨s, dPid, w⟩ := by
    unfold addTrack at h
    obtain ⟨sp, hsp, h⟩ := bindO_ok h
    obtain ⟨dp, hdp, h⟩ := bindO_ok h
    rw [Option.some.injEq] at h
    subst h
    rfl
  intro tid e he
  by_cases htid : tid = ar.nextId
  · subst htid
    rw [htr, lookupG_setG_self] at he
    have he2 : e = ⟨s, dPid, w⟩ := (Option.some_inj.mp he).symm
    subst he2
    obtain ⟨⟨sp2, hsp2, hm1⟩, ⟨dp2, hdp2, hm2⟩, _⟩ := hnew
    exact ⟨⟨sp2, hsp2, hm1⟩, ⟨dp2, hdp2, hm2⟩⟩
  · rw [htr, lookupG_setG_ne _ _ _ _ htid] at he
    obtain ⟨⟨pd1, hpd1, hm1⟩, ⟨pd2, hpd2, hm2⟩⟩ := hinv tid e he
    obtain ⟨pd1b, hpd1b, hout2, _⟩ := hmono e.srcP pd1 hpd1
    obtain ⟨pd2b, hpd2b, _, hin2⟩ := hmono e.dstP pd2 hpd2
    exact ⟨⟨pd1b, hpd1b, hout2 _ hm1⟩, ⟨pd2b, hpd2b, hin2 _ hm2⟩⟩

theorem splitPort_parts {ar : Arena} {origPid : Nat} {ar2 : Arena}
    {outPid inPid : Nat}
    (h : splitPort ar origPid = some (ar2, outPid, inPid)) :
    ∃ orig os,
      lookupG ar.pports origPid = some orig ∧
      mapSideF orig.x orig.y orig.res = some os ∧
      inPid = ar.nextId ∧ outPid = ar.nextId + 1 ∧
      ar2.nextId = ar.nextId + 2 ∧
      ar2.pports = setG (setG ar.pports ar.nextId
          { x := orig.x, y := orig.y, res := orig.res, trk := orig.trk,
            direction := "regi", inputs := [], outputs := orig.outputs })
          (ar.nextId + 1)
          { x := os.1, y := os.2.1, res := os.2.2, trk := orig.trk,
            direction := "rego", inputs := orig.inputs, outputs := [] } ∧
      ar2.ptracks = rebindDsts (ar.nextId + 1) orig.inputs
          (rebindSrcs ar.nextId orig.outputs ar.ptracks) := by
  unfold splitPort at h
  obtain ⟨orig, horig, h⟩ := bindO_ok h
  obtain ⟨os, hos, h⟩ := bindO_ok h
  rw [Option.some.injEq] at h
  simp only [Prod.mk.injEq] at h
  obtain ⟨h1, h2, h3⟩ := h
  subst h1
  subst h2
  subst h3
  exact ⟨orig, os, horig, hos, rfl, rfl, rfl, rfl, rfl⟩

theorem lookupG_lt_of_wf {ar : Arena} (hwf : ArWF ar) {pid : Nat}
    {pd : PortData} (h : lookupG ar.pports pid = some pd) :
    pid < ar.nextId :=
  hwf (pid, pd) (lookupG_mem h)

theorem splitPort_inv {ar : Arena} {origPid : Nat} {ar2 : Arena}
    {outPid inPid : Nat}
    (h : splitPort ar origPid = some (ar2, outPid, inPid))
    (hinv : ArInv ar) (hwf : ArWF ar) : ArInv ar2 := by
  obtain ⟨orig, os, horig, hos, hin, hout, hnext, hports, htracks⟩ :=
    splitPort_parts h
  intro tid e2 he2
  rw [htracks] at he2
  cases h0 : lookupG ar.ptracks tid with
  | none =>
      rw [rebindDsts_lookup_none _ _ (rebindSrcs_lookup_none _ _ h0)] at he2
      exact Option.noConfusion he2
  | some e0 =>
      have h1 := rebindSrcs_lookup_some ar.nextId orig.outputs _ _ h0
      have h2 := rebindDsts_lookup_some (ar.nextId + 1) orig.inputs _ _ h1
      rw [h2] at he2
      have he2eq := Option.some_inj.mp he2
      subst he2eq
      obtain ⟨⟨pds, hpds, hms⟩, ⟨pdd, hpdd, hmd⟩⟩ := hinv tid e0 h0
      have hslt : e0.srcP < ar.nextId := lookupG_lt_of_wf hwf hpds
      have hdlt : e0.dstP < ar.nextId := lookupG_lt_of_wf hwf hpdd
      have hlookIn : lookupG ar2.pports ar.nextId =
          some { x := orig.x, y := orig.y, res := orig.res, trk := orig.trk,
                 direction := "regi", inputs := [], outputs := orig.outputs } := by
        rw [hports, lookupG_setG_ne _ _ _ _
          (by omega : ar.nextId ≠ ar.nextId + 1)]
        exact lookupG_setG_self _ _ _
      have hlookOut : lookupG ar2.pports (ar.nextId + 1) =
          some { x := os.1, y := os.2.1, res := os.2.2, trk := orig.trk,
                 direction := "rego", inputs := orig.inputs, outputs := [] } := by
        rw [hports]
        exact lookupG_setG_self _ _ _
      have hlookOld : ∀ pid pd, pid < ar.nextId →
          lookupG ar.pports pid = some pd →
          lookupG ar2.pports pid = some pd := by
        intro pid pd hlt hl
        rw [hports, lookupG_setG_ne _ _ _ _ (by omega : pid ≠ ar.nextId + 1),
            lookupG_setG_ne _ _ _ _ (by omega : pid ≠ ar.nextId)]
        exact hl
      by_cases hto : tid ∈ orig.outputs
      · by_cases hti : tid ∈ orig.inputs
        · rw [if_pos hti, if_pos hto]
          exact ⟨⟨_, hlookIn, hto⟩, ⟨_, hlookOut, hti⟩⟩
        · rw [if_neg hti, if_pos hto]
          exact ⟨⟨_, hlookIn, hto⟩, ⟨pdd, hlookOld _ _ hdlt hpdd, hmd⟩⟩
      · by_cases hti : tid ∈ orig.inputs
        · rw [if_pos hti, if_neg hto]
          exact ⟨⟨pds, hlookOld _ _ hslt hpds, hms⟩, ⟨_, hlookOut, hti⟩⟩
        · rw [if_neg hti, if_neg hto]
          exact ⟨⟨pds, hlookOld _ _ hslt hpds, hms⟩,
            ⟨pdd, hlookOld _ _ hdlt hpdd, hmd⟩⟩

/-- C10: every Track satisfies membership in its source port's outputs
and its destination port's inputs: Track construction inserts the new
track into both collections, and the register-split rebinding preserves
the invariant, the rebound tracks landing in the new in-port's outputs
and out-port's inputs. -/
theorem track_consistency_spec (ar : Arena) (s dPid w origPid : Nat) :
    (∀ ar2, addTrack ar s dPid w = some ar2 →
      (∃ sp, lookupG ar2.pports s = some sp ∧ ar.nextId ∈ sp.outputs) ∧
      (∃ dp, lookupG ar2.pports dPid = some dp ∧ ar.nextId ∈ dp.inputs) ∧
      lookupG ar2.ptracks ar.nextId = some ⟨s, dPid, w⟩) ∧
    (∀ ar2, addTrack ar s dPid w = some ar2 → ArInv ar → ArInv ar2) ∧
    (∀ res, splitPort ar origPid = some res → ArInv ar → ArWF ar →
      ArInv res.1) := by
  refine ⟨?_, ?_, ?_⟩
  · intro ar2 h
    exact addTrack_new h
  · intro ar2 h hinv
    exact addTrack_inv h hinv
  · intro res h hinv hwf
    obtain ⟨ar2, outPid, inPid⟩ := res
    exact splitPort_inv h hinv hwf

theorem lookupG_eq_none {κ α : Type} [DecidableEq κ] :
    ∀ (l : List (κ × α)) (k : κ), k ∉ l.map Prod.fst → lookupG l k = none := by
  intro l
  induction l with
  | nil => intro k _; rfl
  | cons e rest ih =>
      intro k hk
      cases e with
      | mk k1 v1 =>
          rw [List.map_cons, List.mem_cons] at hk
          push_neg at hk
          simp only [lookupG]
          rw [if_neg (fun hh => hk.1 hh.symm)]
          exact ih k hk.2

theorem lookupG_eraseG_self {κ α : Type} [DecidableEq κ] :
    ∀ (l : List (κ × α)) (k : κ), (l.map Prod.fst).Nodup →
      lookupG (eraseG l k) k = none := by
  intro l
  induction l with
  | nil => intro k _; rfl
  | cons e rest ih =>
      intro k hnd
      cases e with
      | mk k1 v1 =>
          rw [List.map_cons] at hnd
          simp only [eraseG]
          by_cases hk : k1 = k
          · rw [if_pos hk]
            have hnotin : k1 ∉ rest.map Prod.fst := (List.nodup_cons.mp hnd).1
            exact lookupG_eq_none rest k (hk ▸ hnotin)
          · rw [if_neg hk]
            simp only [lookupG]
            rw [if_neg hk]
            exact ih k (List.nodup_cons.mp hnd).2

theorem popG_ok {κ α : Type} [DecidableEq κ] {l : List (κ × α)} {k : κ}
    {v : α} {rest : List (κ × α)} (h : popG l k = some (v, rest)) :
    lookupG l k = some v ∧ rest = eraseG l k := by
  unfold popG at h
  cases hl : lookupG l k with
  | none => rw [hl] at h; exact Option.noConfusion h
  | some w =>
      rw [hl] at h
      rw [Option.some.injEq] at h
      simp only [Prod.mk.injEq] at h
      refine ⟨?_, h.2.symm⟩
      rw [h.1]

/-- The three indexed collections of the 16-bit FabricLayer as mutated
by process_regs, each mapping a position-tuple key to a port id. -/
structure Layer7 where
  ports : List (Key × Nat)
  sinks : List (Key × Nat)
  sources : List (Key × Nat)
deriving DecidableEq

/-- The process_regs loop body for one placed Reg module (fabric.py
lines 260-290).  pos_to_side comes from fabricfuns, absent from src/,
and is passed in as a function (spec: the side is chosen from the
relative positions of the register and its consumer, biased when the
consumer port is a vertical PE port a or c).  A Reg placement tuple is
(x, y, track), so modpos = tuple[:-1] is the (x, y) prefix.  Besides
the updated placement state, layer and arena, the result reports — for
specification only — the key used, the original port id and the new
out/in port ids. -/
def processReg (d : Design)
    (posToSide : Int × Int → Int × Int → Option Bool → PRes)
    (ps : PState) (lay : Layer7) (ar : Arena) (md : Module) :
    Option (PState × Layer7 × Arena × Key × Nat × Nat × Nat) := do
  let lastN ← (d.nets.filter (fun nt =>
      decide (nt.src.mid = md.mid) && (lookupG ps nt.dst.mid).isSome)).getLast?
  let outmod := lastN.dst
  let dstPort := lastN.dstPort
  let mpos ← lookupG ps md.mid
  let opos ← lookupG ps outmod.mid
  let vertport : Option Bool :=
    if outmod.resource = Resource.pe then
      some (decide (dstPort = "a" ∨ dstPort = "c"))
    else none
  let side := posToSide (mpos.x, mpos.y) (opos.x, opos.y) vertport
  let newPos : PPos :=
    { x := mpos.x, y := mpos.y, extra := mpos.extra ++ [KElem.sd side] }
  let ps2 := setG ps md.mid newPos
  let newKey := newPos.tuple
  let pr ← popG lay.ports newKey
  let res ← splitPort ar pr.1
  some (ps2,
        { ports := pr.2
          sinks := setG lay.sinks newKey res.2.1
          sources := setG lay.sources newKey res.2.2 },
        res.1, newKey, pr.1, res.2.1, res.2.2)

/-- process_regs itself: the loop over every Reg module of the design
(fabric.py lines 259-290). -/
def processRegs (d : Design)
    (posToSide : Int × Int → Int × Int → Option Bool → PRes) :
    PState → Layer7 → Arena → List Module → Option (PState × Layer7 × Arena)
  | ps, lay, ar, [] => some (ps, lay, ar)
  | ps, lay, ar, md :: mds =>
      if md.resource = Resource.reg then
        match processReg d posToSide ps lay ar md with
        | none => none
        | some (ps2, lay2, ar2, _, _, _, _) =>
            processRegs d posToSide ps2 lay2 ar2 mds
      else processRegs d posToSide ps lay ar mds

/-- C7: the process_regs body for a placed Reg module pops the Port at
the computed (x, y, track, side) key from the layer's ports collection,
splits it — every track that had the original port as its source is
rebound to the new in-port, every track that had it as destination is
rebound to the new out-port — registers the out-port as sinks[key] and
the in-port as sources[key], the two new ports being distinct; the key
is the register's placement tuple extended by the chosen side, and the
placement state entry is overwritten with that extended tuple. -/
theorem process_regs_spec (d : Design)
    (posToSide : Int × Int → Int × Int → Option Bool → PRes)
    (ps : PState) (lay : Layer7) (ar : Arena) (md : Module)
    (ps2 : PState) (lay2 : Layer7) (ar2 : Arena) (key : Key)
    (origPid outPid inPid : Nat) (orig : PortData)
    (h : processReg d posToSide ps lay ar md =
      some (ps2, lay2, ar2, key, origPid, outPid, inPid))
    (hnodup : (lay.ports.map Prod.fst).Nodup)
    (horig : lookupG ar.pports origPid = some orig)
    (hexOut : ∀ tid, tid ∈ orig.outputs ↔
      ∃ e, lookupG ar.ptracks tid = some e ∧ e.srcP = origPid)
    (hexIn : ∀ tid, tid ∈ orig.inputs ↔
      ∃ e, lookupG ar.ptracks tid = some e ∧ e.dstP = origPid) :
    lookupG lay.ports key = some origPid ∧
    lookupG lay2.ports key = none ∧
    lookupG lay2.sinks key = some outPid ∧
    lookupG lay2.sources key = some inPid ∧
    outPid ≠ inPid ∧
    (∃ ipd, lookupG ar2.pports inPid = some ipd ∧
      ipd.direction = "regi" ∧ ipd.outputs = orig.outputs) ∧
    (∃ opd, lookupG ar2.pports outPid = some opd ∧
      opd.direction = "rego" ∧ opd.inputs = orig.inputs) ∧
    (∀ tid e, lookupG ar.ptracks tid = some e →
      ∃ e2, lookupG ar2.ptracks tid = some e2 ∧
        e2.srcP = (if e.srcP = origPid then inPid else e.srcP) ∧
        e2.dstP = (if e.dstP = origPid then outPid else e.dstP)) ∧
    (∃ mpos side, lookupG ps md.mid = some mpos ∧
      key = KElem.num mpos.x :: KElem.num mpos.y ::
        (mpos.extra ++ [KElem.sd side]) ∧
      lookupG ps2 md.mid = some
        { x := mpos.x, y := mpos.y,
          extra := mpos.extra ++ [KElem.sd side] }) := by
  unfold processReg at h
  obtain ⟨lastN, hlast, h⟩ := bindO_ok h
  obtain ⟨mpos, hmpos, h⟩ := bindO_ok h
  obtain ⟨opos, hopos, h⟩ := bindO_ok h
  obtain ⟨pr, hpop, h⟩ := bindO_ok h
  obtain ⟨origPid0, portsRest⟩ := pr
  obtain ⟨res, hsplit, h⟩ := bindO_ok h
  obtain ⟨arS, outS, inS⟩ := res
  rw [Option.some.injEq] at h
  simp only [Prod.mk.injEq] at h
  obtain ⟨e1, e2, e3, e4, e5, e6, e7⟩ := h
  subst e1
  subst e2
  subst e3
  subst e4
  subst e5
  subst e6
  subst e7
  obtain ⟨hlook, hrest⟩ := popG_ok hpop
  obtain ⟨orig2, os, horig2, hos, hinEq, houtEq, hnext, hports, htracks⟩ :=
    splitPort_parts hsplit
  have horigeq : orig2 = orig := by
    rw [horig] at horig2
    exact (Option.some_inj.mp horig2).symm
  subst horigeq
  have hlookIn : lookupG arS.pports ar.nextId =
      some { x := orig2.x, y := orig2.y, res := orig2.res, trk := orig2.trk,
             direction := "regi", inputs := [], outputs := orig2.outputs } := by
    rw [hports, lookupG_setG_ne _ _ _ _
      (by omega : ar.nextId ≠ ar.nextId + 1)]
    exact lookupG_setG_self _ _ _
  have hlookOut : lookupG arS.pports (ar.nextId + 1) =
      some { x := os.1, y := os.2.1, res := os.2.2, trk := orig2.trk,
             direction := "rego", inputs := orig2.inputs, outputs := [] } := by
    rw [hports]
    exact lookupG_setG_self _ _ _
  refine ⟨hlook, ?_, lookupG_setG_self _ _ _, lookupG_setG_self _ _ _,
    by omega, ?_, ?_, ?_, ?_⟩
  · rw [hrest]
    exact lookupG_eraseG_self _ _ hnodup
  · rw [hinEq]
    exact ⟨_, hlookIn, rfl, rfl⟩
  · rw [houtEq]
    exact ⟨_, hlookOut, rfl, rfl⟩
  · intro tid e he
    have h1 := rebindSrcs_lookup_some ar.nextId orig2.outputs _ _ he
    have h2 := rebindDsts_lookup_some (ar.nextId + 1) orig2.inputs _ _ h1
    have hiffO : tid ∈ orig2.outputs ↔ e.srcP = origPid0 := by
      rw [hexOut tid]
      constructor
      · rintro ⟨e3, he3, hp⟩
        have hee : some e = some e3 := he ▸ he3
        rw [Option.some_inj.mp hee]
        exact hp
      · intro hp
        exact ⟨e, he, hp⟩
    have hiffI : tid ∈ orig2.inputs ↔ e.dstP = origPid0 := by
      rw [hexIn tid]
      constructor
      · rintro ⟨e3, he3, hp⟩
        have hee : some e = some e3 := he ▸ he3
        rw [Option.some_inj.mp hee]
        exact hp
      · intro hp
        exact ⟨e, he, hp⟩
    refine ⟨(if tid ∈ orig2.inputs then
        { (if tid ∈ orig2.outputs then { e with srcP := ar.nextId } else e) with
          dstP := ar.nextId + 1 }
      else (if tid ∈ orig2.outputs then { e with srcP := ar.nextId } else e)),
      ?_, ?_, ?_⟩
    · rw [htracks]
      exact h2
    · by_cases hsrc : e.srcP = origPid0
      · have hto : tid ∈ orig2.outputs := hiffO.mpr hsrc
        rw [if_pos hsrc]
        by_cases hti : tid ∈ orig2.inputs
        · rw [if_pos hti, if_pos hto, hinEq]
        · rw [if_neg hti, if_pos hto, hinEq]
      · have hto : tid ∉ orig2.outputs := fun hc => hsrc (hiffO.mp hc)
        rw [if_neg hsrc]
        by_cases hti : tid ∈ orig2.inputs
        · rw [if_pos hti, if_neg hto]
        · rw [if_neg hti, if_neg hto]
    · by_cases hdst : e.dstP = origPid0
      · have hti : tid ∈ orig2.inputs := hiffI.mpr hdst
        rw [if_pos hdst, if_pos hti, houtEq]
      · have hti : tid ∉ orig2.inputs := fun hc => hdst (hiffI.mp hc)
        rw [if_neg hdst, if_neg hti]
        by_cases hto : tid ∈ orig2.outputs
        · rw [if_pos hto]
        · rw [if_neg hto]
  · exact ⟨mpos, _, hmpos, rfl, lookupG_setG_self _ _ _⟩

/-- Example arena port: a north-side track port. -/
def egPd0 : PortData :=
  { x := 0, y := 0, res := PRes.n, trk := KElem.num 0,
    direction := "i", inputs := [], outputs := [] }

/-- Example arena port: an east-side track port. -/
def egPd1 : PortData :=
  { x := 1, y := 0, res := PRes.e, trk := KElem.num 0,
    direction := "i", inputs := [], outputs := [] }

/-- Example arena: two ports, no tracks yet. -/
def egArena : Arena :=
  { nextId := 2, pports := [(0, egPd0), (1, egPd1)], ptracks := [] }

/-- The example arena after adding one track from port 0 to port 1. -/
def egArena2 : Arena := (addTrack egArena 0 1 16).getD egArena

/-- Witness for C10: the new track lands in both ports' collections,
the invariant holds afterwards, and splitting a port preserves it. -/
theorem track_consistency_spec_witness :
    addTrack egArena 0 1 16 = some egArena2 ∧ ArInv egArena2 ∧
    ∃ res, splitPort egArena2 0 = some res ∧ ArInv res.1 := by
  have h1 : addTrack egArena 0 1 16 = some egArena2 := by rfl
  have hinv0 : ArInv egArena := by
    intro tid e he
    exact Option.noConfusion he
  have hinv2 := (track_consistency_spec egArena 0 1 16 0).2.1 egArena2 h1 hinv0
  have hwf2 : ArWF egArena2 := by
    show ∀ q ∈ egArena2.pports, q.1 < egArena2.nextId
    decide
  obtain ⟨res, hres⟩ : ∃ r, splitPort egArena2 0 = some r := ⟨_, rfl⟩
  exact ⟨h1, hinv2, res, hres,
    (track_consistency_spec egArena2 0 1 16 0).2.2 res hres hinv2 hwf2⟩

/-- Example Reg module for the register-split witness. -/
def egReg7 : Module := { mid := 7, resource := Resource.reg, fused := false }

/-- Example net from the register to a PE input a. -/
def egNet7 : Net :=
  { src := egReg7, srcPort := "out", dst := egModB, dstPort := "a", width := 16 }

/-- Example design for the register-split witness. -/
def egDesign7 : Design := { modules := [egReg7, egModB], nets := [egNet7] }

/-- Example placement: the register at (0,0) track 0, the PE at (1,0). -/
def egPState7 : PState :=
  [(7, { x := 0, y := 0, extra := [KElem.num 0] }), (1, egPosB)]

/-- Example pos_to_side oracle: always N. -/
def egPosToSide : Int × Int → Int × Int → Option Bool → PRes :=
  fun _ _ _ => PRes.n

/-- The original register-slot port: one outgoing track 10, one
incoming track 11. -/
def egOrigPd7 : PortData :=
  { x := 0, y := 0, res := PRes.n, trk := KElem.num 0,
    direction := "i", inputs := [11], outputs := [10] }

/-- The neighbor port wired to the register slot by tracks 10 and 11. -/
def egOtherPd7 : PortData :=
  { x := 0, y := 1, res := PRes.s, trk := KElem.num 0,
    direction := "i", inputs := [10], outputs := [11] }

/-- The register key (x, y, track, side) of the example. -/
def egKey7 : Key :=
  [KElem.num 0, KElem.num 0, KElem.num 0, KElem.sd PRes.n]

/-- Example layer holding the register-slot port under its key. -/
def egLay7 : Layer7 := { ports := [(egKey7, 0)], sinks := [], sources := [] }

/-- Example arena for the register split: ports 0 and 5, tracks
10 : 0 -> 5 and 11 : 5 -> 0. -/
def egAr7 : Arena :=
  { nextId := 12
    pports := [(0, egOrigPd7), (5, egOtherPd7)]
    ptracks := [(10, ⟨0, 5, 16⟩), (11, ⟨5, 0, 16⟩)] }

theorem egHexOut7 : ∀ tid, tid ∈ egOrigPd7.outputs ↔
    ∃ e, lookupG egAr7.ptracks tid = some e ∧ e.srcP = 0 := by
  intro tid
  constructor
  · intro ht
    have h10 : tid = 10 := by simpa [egOrigPd7] using ht
    subst h10
    exact ⟨⟨0, 5, 16⟩, rfl, rfl⟩
  · rintro ⟨e, he, hsrc⟩
    have hmem := lookupG_mem he
    simp only [egAr7, List.mem_cons, List.not_mem_nil, or_false,
      Prod.mk.injEq] at hmem
    rcases hmem with ⟨ht, _⟩ | ⟨ht, hee⟩
    · simp [egOrigPd7, ht]
    · rw [hee] at hsrc
      exact absurd hsrc (by decide)

theorem egHexIn7 : ∀ tid, tid ∈ egOrigPd7.inputs ↔
    ∃ e, lookupG egAr7.ptracks tid = some e ∧ e.dstP = 0 := by
  intro tid
  constructor
  · intro ht
    have h11 : tid = 11 := by simpa [egOrigPd7] using ht
    subst h11
    exact ⟨⟨5, 0, 16⟩, rfl, rfl⟩
  · rintro ⟨e, he, hdst⟩
    have hmem := lookupG_mem he
    simp only [egAr7, List.mem_cons, List.not_mem_nil, or_false,
      Prod.mk.injEq] at hmem
    rcases hmem with ⟨ht, hee⟩ | ⟨ht, _⟩
    · rw [hee] at hdst
      exact absurd hdst (by decide)
    · simp [egOrigPd7, ht]

/-- Witness for C7 on the concrete register slot: the port at the key
disappears from ports, the out-port 13 becomes sinks[key], the in-port
12 becomes sources[key], and the two are distinct. -/
theorem process_regs_spec_witness :
    ∃ ps2 lay2 ar2,
      processReg egDesign7 egPosToSide egPState7 egLay7 egAr7 egReg7 =
        some (ps2, lay2, ar2, egKey7, 0, 13, 12) ∧
      lookupG lay2.ports egKey7 = none ∧
      lookupG lay2.sinks egKey7 = some 13 ∧
      lookupG lay2.sources egKey7 = some 12 ∧
      (13 : Nat) ≠ 12 := by
  obtain ⟨h1, h2, h3, h4, h5, _, _, _, _⟩ :=
    process_regs_spec egDesign7 egPosToSide egPState7 egLay7 egAr7 egReg7
      _ _ _ egKey7 0 13 12 egOrigPd7 (by rfl) (by decide) (by rfl)
      egHexOut7 egHexIn7
  exact ⟨_, _, _, rfl, h2, h3, h4, h5⟩

/-! ## C8: build_msgraph (constraints.py lines 245-282) -/

/-- The monosat graph and vars state built by build_msgraph: node and
edge counters, the named nodes, the directed edges (edge id, source
node, destination node), the port-to-node bindings (vars), and the
edge-to-Track reverse map. -/
structure MSState where
  nodeCount : Nat
  nodes : List (Nat × String)
  edgeCount : Nat
  edges : List (Nat × Nat × Nat)
  pvars : List (Nat × Nat)
  etracks : List (Nat × FTrack)
deriving DecidableEq

/-- The state of a fresh graph handle. -/
def initMS : MSState :=
  { nodeCount := 0, nodes := [], edgeCount := 0, edges := [],
    pvars := [], etracks := [] }

/-- graph.addNode(name): returns the new state and the node id. -/
def addNodeMS (st : MSState) (nm : String) : MSState × Nat :=
  ({ st with nodeCount := st.nodeCount + 1,
             nodes := (st.nodeCount, nm) :: st.nodes },
   st.nodeCount)

/-- vars[port] = graph.addNode(name). -/
def bindPort (st : MSState) (pid : Nat) (nm : String) : MSState :=
  let r := addNodeMS st nm
  { r.1 with pvars := (pid, r.2) :: r.1.pvars }

/-- The PE node naming scheme of lines 263-265. -/
def peNodeName (x y : Int) (tag : String) : String :=
  "(" ++ toString x ++ "," ++ toString y ++ ")PE_" ++ tag

/-- The iteration order of the PE loop (lines 260-262): x over
range(width) outer, y over range(height) inner. -/
def gridList (cols rows : Nat) : List (Int × Int) :=
  (List.range cols).bind (fun x =>
    (List.range rows).map (fun y => (Int.ofNat x, Int.ofNat y)))

/-- The PE phase of build_msgraph (lines 260-265): for every used
location of the traversal, bind sinks[(x,y,a)], sinks[(x,y,b)] and
sources[(x,y,out)] to three fresh named nodes. -/
def msPhase1 (lay : RLayer) (I : List (Int × Int)) :
    List (Int × Int) → MSState → Except String MSState
  | [], st => Except.ok st
  | (x, y) :: rest, st =>
      if (x, y) ∈ I then
        match lookupG lay.sinks [KElem.num x, KElem.num y, KElem.str ("a")],
              lookupG lay.sinks [KElem.num x, KElem.num y, KElem.str ("b")],
              lookupG lay.sources [KElem.num x, KElem.num y, KElem.str ("out")] with
        | some pa, some pb, some po =>
            msPhase1 lay I rest
              (bindPort (bindPort (bindPort st pa.pid (peNodeName x y ("a")))
                pb.pid (peNodeName x y ("b"))) po.pid (peNodeName x y ("out")))
        | _, _, _ => Except.error ("KeyError")
      else msPhase1 lay I rest st

/-- The port ids bound by the PE phase, in binding order. -/
def msPhase1Pids (lay : RLayer) (I : List (Int × Int)) :
    List (Int × Int) → List Nat
  | [] => []
  | (x, y) :: rest =>
      if (x, y) ∈ I then
        (match lookupG lay.sinks [KElem.num x, KElem.num y, KElem.str ("a")],
               lookupG lay.sinks [KElem.num x, KElem.num y, KElem.str ("b")],
               lookupG lay.sources [KElem.num x, KElem.num y, KElem.str ("out")] with
         | some pa, some pb, some po => [pa.pid, pb.pid, po.pid]
         | _, _, _ => []) ++ msPhase1Pids lay I rest
      else msPhase1Pids lay I rest

/-- vars-on-demand for a track endpoint (lines 273-276). -/
def getOrAddNode (st : MSState) (p : FPort) : MSState × Nat :=
  match lookupG st.pvars p.pid with
  | some nid => (st, nid)
  | none =>
      let r := addNodeMS st p.pname
      ({ r.1 with pvars := (p.pid, r.2) :: r.1.pvars }, r.2)

/-- The track phase of build_msgraph (lines 267-280): skip tracks whose
source is a PE port at an unused location; otherwise allocate endpoint
nodes on demand, add a directed edge, and record the edge-to-Track
reverse map. -/
def msPhase2 (I : List (Int × Int)) : List FTrack → MSState → MSState
  | [], st => st
  | t :: rest, st =>
      if t.src.res = PRes.pe ∧ (t.src.x, t.src.y) ∉ I then
        msPhase2 I rest st
      else
        let r1 := getOrAddNode st t.src
        let r2 := getOrAddNode r1.1 t.dst
        msPhase2 I rest
          { r2.1 with
            edgeCount := r2.1.edgeCount + 1
            edges := (r2.1.edgeCount, r1.2, r2.2) :: r2.1.edges
            etracks := (r2.1.edgeCount, t) :: r2.1.etracks }

/-- build_msgraph (lines 245-282): one shared graph handle, every
virtual net's graph reference pointing at it (a binding with no further
observable content here), then the PE nodes, then the track edges. -/
def buildMsgraph (lay : RLayer) (I : List (Int × Int)) (cols rows : Nat) :
    Except String MSState :=
  match msPhase1 lay I (gridList cols rows) initMS with
  | Except.error s => Except.error s
  | Except.ok st1 => Except.ok (msPhase2 I lay.tracks st1)

theorem mem_gridList {cols rows x y : Nat} (hx : x < cols) (hy : y < rows) :
    ((x : Int), (y : Int)) ∈ gridList cols rows := by
  unfold gridList
  refine List.mem_bind.mpr ⟨x, List.mem_range.mpr hx, ?_⟩
  exact List.mem_map.mpr ⟨y, List.mem_range.mpr hy, rfl⟩

theorem msPhase1_etracks (lay : RLayer) (I : List (Int × Int)) :
    ∀ (L : List (Int × Int)) (st st' : MSState),
      msPhase1 lay I L st = Except.ok st' →
      st'.etracks = st.etracks ∧ st'.edges = st.edges := by
  intro L
  induction L with
  | nil =>
      intro st st' h
      have hst : st = st' := Option.some_inj.mp (by simpa [msPhase1] using h)
      rw [← hst]
      exact ⟨rfl, rfl⟩
  | cons xy rest ih =>
      intro st st' h
      obtain ⟨x, y⟩ := xy
      simp only [msPhase1] at h
      by_cases hI : (x, y) ∈ I
      · rw [if_pos hI] at h
        cases ha : lookupG lay.sinks [KElem.num x, KElem.num y, KElem.str ("a")] with
        | none => rw [ha] at h; exact Except.noConfusion h
        | some pa =>
        rw [ha] at h
        cases hb : lookupG lay.sinks [KElem.num x, KElem.num y, KElem.str ("b")] with
        | none => rw [hb] at h; exact Except.noConfusion h
        | some pb =>
        rw [hb] at h
        cases hc : lookupG lay.sources [KElem.num x, KElem.num y, KElem.str ("out")] with
        | none => rw [hc] at h; exact Except.noConfusion h
        | some po =>
        rw [hc] at h
        have hrec : msPhase1 lay I rest
            (bindPort (bindPort (bindPort st pa.pid (peNodeName x y ("a")))
              pb.pid (peNodeName x y ("b"))) po.pid (peNodeName x y ("out"))) =
            Except.ok st' := h
        have h2 := ih _ _ hrec
        exact h2
      · rw [if_neg hI] at h
        exact ih _ _ h

theorem msPhase1_nodes_mono (lay : RLayer) (I : List (Int × Int)) :
    ∀ (L : List (Int × Int)) (st st' : MSState),
      msPhase1 lay I L st = Except.ok st' →
      ∀ p, p ∈ st.nodes → p ∈ st'.nodes := by
  intro L
  induction L with
  | nil =>
      intro st st' h p hp
      have hst : st = st' := Option.some_inj.mp (by simpa [msPhase1] using h)
      rw [← hst]
      exact hp
  | cons xy rest ih =>
      intro st st' h p hp
      obtain ⟨x, y⟩ := xy
      simp only [msPhase1] at h
      by_cases hI : (x, y) ∈ I
      · rw [if_pos hI] at h
        cases ha : lookupG lay.sinks [KElem.num x, KElem.num y, KElem.str ("a")] with
        | none => rw [ha] at h; exact Except.noConfusion h
        | some pa =>
        rw [ha] at h
        cases hb : lookupG lay.sinks [KElem.num x, KElem.num y, KElem.str ("b")] with
        | none => rw [hb] at h; exact Except.noConfusion h
        | some pb =>
        rw [hb] at h
        cases hc : lookupG lay.sources [KElem.num x, KElem.num y, KElem.str ("out")] with
        | none => rw [hc] at h; exact Except.noConfusion h
        | some po =>
        rw [hc] at h
        have hrec : msPhase1 lay I rest
            (bindPort (bindPort (bindPort st pa.pid (peNodeName x y ("a")))
              pb.pid (peNodeName x y ("b"))) po.pid (peNodeName x y ("out"))) =
            Except.ok st' := h
        refine ih _ _ hrec p ?_
        simp only [bindPort, addNodeMS]
        exact List.mem_cons_of_mem _ (List.mem_cons_of_mem _
          (List.mem_cons_of_mem _ hp))
      · rw [if_neg hI] at h
        exact ih _ _ h p hp

theorem msPhase1_pvars_pres (lay : RLayer) (I : List (Int × Int)) :
    ∀ (L : List (Int × Int)) (st st' : MSState),
      msPhase1 lay I L st = Except.ok st' →
      ∀ pid nid, pid ∉ msPhase1Pids lay I L →
        lookupG st.pvars pid = some nid →
        lookupG st'.pvars pid = some nid := by
  intro L
  induction L with
  | nil =>
      intro st st' h pid nid _ hl
      have hst : st = st' := Option.some_inj.mp (by simpa [msPhase1] using h)
      rw [← hst]
      exact hl
  | cons xy rest ih =>
      intro st st' h pid nid hnin hl
      obtain ⟨x, y⟩ := xy
      simp only [msPhase1] at h
      simp only [msPhase1Pids] at hnin
      by_cases hI : (x, y) ∈ I
      · rw [if_pos hI] at h
        rw [if_pos hI] at hnin
        cases ha : lookupG lay.sinks [KElem.num x, KElem.num y, KElem.str ("a")] with
        | none => rw [ha] at h; exact Except.noConfusion h
        | some pa =>
        rw [ha] at h
        rw [ha] at hnin
        cases hb : lookupG lay.sinks [KElem.num x, KElem.num y, KElem.str ("b")] with
        | none => rw [hb] at h; exact Except.noConfusion h
        | some pb =>
        rw [hb] at h
        rw [hb] at hnin
        cases hc : lookupG lay.sources [KElem.num x, KElem.num y, KElem.str ("out")] with
        | none => rw [hc] at h; exact Except.noConfusion h
        | some po =>
        rw [hc] at h
        rw [hc] at hnin
        have hnin2 : pid ∉ [pa.pid, pb.pid, po.pid] ++ msPhase1Pids lay I rest :=
          hnin
        rw [List.mem_append] at hnin2
        push_neg at hnin2
        have hpa : pid ≠ pa.pid := by
          intro hh
          exact hnin2.1 (by rw [hh]; exact List.mem_cons_self _ _)
        have hpb : pid ≠ pb.pid := by
          intro hh
          refine hnin2.1 ?_
          rw [hh]
          exact List.mem_cons_of_mem _ (List.mem_cons_self _ _)
        have hpo : pid ≠ po.pid := by
          intro hh
          refine hnin2.1 ?_
          rw [hh]
          exact List.mem_cons_of_mem _ (List.mem_cons_of_mem _
            (List.mem_cons_self _ _))
        have hrec : msPhase1 lay I rest
            (bindPort (bindPort (bindPort st pa.pid (peNodeName x y ("a")))
              pb.pid (peNodeName x y ("b"))) po.pid (peNodeName x y ("out"))) =
            Except.ok st' := h
        refine ih _ _ hrec pid nid hnin2.2 ?_
        simp only [bindPort, addNodeMS, lookupG]
        rw [if_neg (fun hh => hpo hh.symm), if_neg (fun hh => hpb hh.symm),
            if_neg (fun hh => hpa hh.symm)]
        exact hl
      · rw [if_neg hI] at h
        rw [if_neg hI] at hnin
        exact ih _ _ h pid nid hnin hl

theorem msPhase1_main (lay : RLayer) (I : List (Int × Int)) :
    ∀ (L : List (Int × Int)) (st st' : MSState),
      msPhase1 lay I L st = Except.ok st' →
      (msPhase1Pids lay I L).Nodup →
      ∀ x y : Int, (x, y) ∈ L → (x, y) ∈ I →
      ∃ pa pb po na nb no,
        lookupG lay.sinks [KElem.num x, KElem.num y, KElem.str ("a")] = some pa ∧
        lookupG lay.sinks [KElem.num x, KElem.num y, KElem.str ("b")] = some pb ∧
        lookupG lay.sources [KElem.num x, KElem.num y, KElem.str ("out")] = some po ∧
        lookupG st'.pvars pa.pid = some na ∧
        (na, peNodeName x y ("a")) ∈ st'.nodes ∧
        lookupG st'.pvars pb.pid = some nb ∧
        (nb, peNodeName x y ("b")) ∈ st'.nodes ∧
        lookupG st'.pvars po.pid = some no ∧
        (no, peNodeName x y ("out")) ∈ st'.nodes := by
  intro L
  induction L with
  | nil =>
      intro st st' _ _ x y hmem
      exact absurd hmem (List.not_mem_nil _)
  | cons xy rest ih =>
      intro st st' h hnd x y hmem hI
      obtain ⟨x0, y0⟩ := xy
      simp only [msPhase1] at h
      simp only [msPhase1Pids] at hnd
      by_cases hI0 : (x0, y0) ∈ I
      · rw [if_pos hI0] at h
        rw [if_pos hI0] at hnd
        cases ha : lookupG lay.sinks [KElem.num x0, KElem.num y0, KElem.str ("a")] with
        | none => rw [ha] at h; exact Except.noConfusion h
        | some pa =>
        rw [ha] at h
        rw [ha] at hnd
        cases hb : lookupG lay.sinks [KElem.num x0, KElem.num y0, KElem.str ("b")] with
        | none => rw [hb] at h; exact Except.noConfusion h
        | some pb =>
        rw [hb] at h
        rw [hb] at hnd
        cases hc : lookupG lay.sources [KElem.num x0, KElem.num y0, KElem.str ("out")] with
        | none => rw [hc] at h; exact Except.noConfusion h
        | some po =>
        rw [hc] at h
        rw [hc] at hnd
        have hrec : msPhase1 lay I rest
            (bindPort (bindPort (bindPort st pa.pid (peNodeName x0 y0 ("a")))
              pb.pid (peNodeName x0 y0 ("b"))) po.pid (peNodeName x0 y0 ("out"))) =
            Except.ok st' := h
        have hnd2 : ([pa.pid, pb.pid, po.pid] ++
            msPhase1Pids lay I rest).Nodup := hnd
        have hndtriple := (List.nodup_append.mp hnd2).1
        have hndrest := (List.nodup_append.mp hnd2).2.1
        have hdisj := (List.nodup_append.mp hnd2).2.2
        rcases List.mem_cons.mp hmem with hxy | hxy
        · rw [Prod.mk.injEq] at hxy
          obtain ⟨hx, hy⟩ := hxy
          subst hx
          subst hy
          have hd1 := List.nodup_cons.mp hndtriple
          have hd2 := List.nodup_cons.mp hd1.2
          have hab : pa.pid ≠ pb.pid := fun hh => hd1.1
            (by rw [hh]; exact List.mem_cons_self _ _)
          have hao : pa.pid ≠ po.pid := fun hh => hd1.1
            (by rw [hh]; exact List.mem_cons_of_mem _ (List.mem_cons_self _ _))
          have hbo : pb.pid ≠ po.pid := fun hh => hd2.1
            (by rw [hh]; exact List.mem_cons_self _ _)
          have hpaR : pa.pid ∉ msPhase1Pids lay I rest :=
            fun hin => hdisj (List.mem_cons_self _ _) hin
          have hpbR : pb.pid ∉ msPhase1Pids lay I rest :=
            fun hin => hdisj (List.mem_cons_of_mem _ (List.mem_cons_self _ _)) hin
          have hpoR : po.pid ∉ msPhase1Pids lay I rest :=
            fun hin => hdisj (List.mem_cons_of_mem _
              (List.mem_cons_of_mem _ (List.mem_cons_self _ _))) hin
          have hoa : po.pid ≠ pa.pid := fun hh => hao hh.symm
          have hba : pb.pid ≠ pa.pid := fun hh => hab hh.symm
          have hob : po.pid ≠ pb.pid := fun hh => hbo hh.symm
          have hpa1 : lookupG (bindPort (bindPort (bindPort st pa.pid
              (peNodeName x y ("a"))) pb.pid (peNodeName x y ("b")))
              po.pid (peNodeName x y ("out"))).pvars pa.pid =
              some st.nodeCount := by
            simp [bindPort, addNodeMS, lookupG, hoa, hba]
          have hpb1 : lookupG (bindPort (bindPort (bindPort st pa.pid
              (peNodeName x y ("a"))) pb.pid (peNodeName x y ("b")))
              po.pid (peNodeName x y ("out"))).pvars pb.pid =
              some (st.nodeCount + 1) := by
            simp [bindPort, addNodeMS, lookupG, hob]
          have hpo1 : lookupG (bindPort (bindPort (bindPort st pa.pid
              (peNodeName x y ("a"))) pb.pid (peNodeName x y ("b")))
              po.pid (peNodeName x y ("out"))).pvars po.pid =
              some (st.nodeCount + 2) := by
            simp [bindPort, addNodeMS, lookupG]
          have hna1 : (st.nodeCount, peNodeName x y ("a")) ∈
              (bindPort (bindPort (bindPort st pa.pid
                (peNodeName x y ("a"))) pb.pid (peNodeName x y ("b")))
                po.pid (peNodeName x y ("out"))).nodes := by
            simp only [bindPort, addNodeMS]
            exact List.mem_cons_of_mem _ (List.mem_cons_of_mem _
              (List.mem_cons_self _ _))
          have hnb1 : (st.nodeCount + 1, peNodeName x y ("b")) ∈
              (bindPort (bindPort (bindPort st pa.pid
                (peNodeName x y ("a"))) pb.pid (peNodeName x y ("b")))
                po.pid (peNodeName x y ("out"))).nodes := by
            simp only [bindPort, addNodeMS]
            exact List.mem_cons_of_mem _ (List.mem_cons_self _ _)
          have hno1 : (st.nodeCount + 2, peNodeName x y ("out")) ∈
              (bindPort (bindPort (bindPort st pa.pid
                (peNodeName x y ("a"))) pb.pid (peNodeName x y ("b")))
                po.pid (peNodeName x y ("out"))).nodes := by
            simp only [bindPort, addNodeMS]
            exact List.mem_cons_self _ _
          refine ⟨pa, pb, po, st.nodeCount, st.nodeCount + 1, st.nodeCount + 2,
            ha, hb, hc, ?_, ?_, ?_, ?_, ?_, ?_⟩
          · exact msPhase1_pvars_pres lay I rest _ _ hrec pa.pid _ hpaR hpa1
          · exact msPhase1_nodes_mono lay I rest _ _ hrec _ hna1
          · exact msPhase1_pvars_pres lay I rest _ _ hrec pb.pid _ hpbR hpb1
          · exact msPhase1_nodes_mono lay I rest _ _ hrec _ hnb1
          · exact msPhase1_pvars_pres lay I rest _ _ hrec po.pid _ hpoR hpo1
          · exact msPhase1_nodes_mono lay I rest _ _ hrec _ hno1
        · exact ih _ _ hrec hndrest x y hxy hI
      · rw [if_neg hI0] at h
        rw [if_neg hI0] at hnd
        rcases List.mem_cons.mp hmem with hxy | hxy
        · rw [Prod.mk.injEq] at hxy
          obtain ⟨hx, hy⟩ := hxy
          subst hx
          subst hy
          exact absurd hI hI0
        · exact ih _ _ h hnd x y hxy hI

theorem getOrAddNode_state (st : MSState) (p : FPort) :
    (getOrAddNode st p).1.etracks = st.etracks ∧
    (getOrAddNode st p).1.edges = st.edges ∧
    (∀ q, q ∈ st.nodes → q ∈ (getOrAddNode st p).1.nodes) ∧
    lookupG (getOrAddNode st p).1.pvars p.pid = some (getOrAddNode st p).2 ∧
    (∀ pid nid, lookupG st.pvars pid = some nid →
      lookupG (getOrAddNode st p).1.pvars pid = some nid) := by
  unfold getOrAddNode
  cases hl : lookupG st.pvars p.pid with
  | some nid =>
      exact ⟨rfl, rfl, fun q hq => hq, hl, fun pid nid2 h => h⟩
  | none =>
      refine ⟨rfl, rfl, fun q hq => List.mem_cons_of_mem _ hq, ?_, ?_⟩
      · simp [addNodeMS, lookupG]
      · intro pid nid2 h
        have hne : p.pid ≠ pid := by
          intro hh
          rw [hh] at hl
          rw [hl] at h
          exact Option.noConfusion h
        simp only [addNodeMS, lookupG]
        rw [if_neg hne]
        exact h

theorem msPhase2_pres (I : List (Int × Int)) :
    ∀ (ts : List FTrack) (st : MSState),
      (∀ pid nid, lookupG st.pvars pid = some nid →
        lookupG (msPhase2 I ts st).pvars pid = some nid) ∧
      (∀ q, q ∈ st.nodes → q ∈ (msPhase2 I ts st).nodes) ∧
      (∀ q, q ∈ st.edges → q ∈ (msPhase2 I ts st).edges) ∧
      (∀ q, q ∈ st.etracks → q ∈ (msPhase2 I ts st).etracks) := by
  intro ts
  induction ts with
  | nil =>
      intro st
      exact ⟨fun _ _ h => h, fun _ h => h, fun _ h => h, fun _ h => h⟩
  | cons t rest ih =>
      intro st
      simp only [msPhase2]
      by_cases hskip : t.src.res = PRes.pe ∧ (t.src.x, t.src.y) ∉ I
      · rw [if_pos hskip]
        exact ih st
      · rw [if_neg hskip]
        obtain ⟨g1a, g1b, g1c, g1d, g1e⟩ := getOrAddNode_state st t.src
        obtain ⟨g2a, g2b, g2c, g2d, g2e⟩ :=
          getOrAddNode_state (getOrAddNode st t.src).1 t.dst
        refine ⟨?_, ?_, ?_, ?_⟩
        · intro pid nid h
          exact (ih _).1 pid nid (g2e pid nid (g1e pid nid h))
        · intro q hq
          exact (ih _).2.1 q (g2c q (g1c q hq))
        · intro q hq
          refine (ih _).2.2.1 q (List.mem_cons_of_mem _ ?_)
          rw [g2b, g1b]
          exact hq
        · intro q hq
          refine (ih _).2.2.2 q (List.mem_cons_of_mem _ ?_)
          rw [g2a, g1a]
          exact hq

theorem msPhase2_etracks_src (I : List (Int × Int)) :
    ∀ (ts : List FTrack) (st : MSState) (e : Nat) (t : FTrack),
      (e, t) ∈ (msPhase2 I ts st).etracks →
      (e, t) ∈ st.etracks ∨
        (t ∈ ts ∧ ¬(t.src.res = PRes.pe ∧ (t.src.x, t.src.y) ∉ I)) := by
  intro ts
  induction ts with
  | nil =>
      intro st e t h
      exact Or.inl h
  | cons t0 rest ih =>
      intro st e t h
      simp only [msPhase2] at h
      by_cases hskip : t0.src.res = PRes.pe ∧ (t0.src.x, t0.src.y) ∉ I
      · rw [if_pos hskip] at h
        rcases ih st e t h with h2 | ⟨h2, h3⟩
        · exact Or.inl h2
        · exact Or.inr ⟨List.mem_cons_of_mem _ h2, h3⟩
      · rw [if_neg hskip] at h
        rcases ih _ e t h with h2 | ⟨h2, h3⟩
        · obtain ⟨g1a, _, _, _, _⟩ := getOrAddNode_state st t0.src
          obtain ⟨g2a, _, _, _, _⟩ :=
            getOrAddNode_state (getOrAddNode st t0.src).1 t0.dst
          rcases List.mem_cons.mp h2 with hc | hc
          · rw [Prod.mk.injEq] at hc
            refine Or.inr ⟨?_, ?_⟩
            · rw [hc.2]
              exact List.mem_cons_self _ _
            · rw [hc.2]
              exact hskip
          · rw [g2a, g1a] at hc
            exact Or.inl hc
        · exact Or.inr ⟨List.mem_cons_of_mem _ h2, h3⟩

theorem msPhase2_emits (I : List (Int × Int)) :
    ∀ (ts : List FTrack) (st : MSState) (t : FTrack),
      t ∈ ts → ¬(t.src.res = PRes.pe ∧ (t.src.x, t.src.y) ∉ I) →
      ∃ e u v, (e, u, v) ∈ (msPhase2 I ts st).edges ∧
        (e, t) ∈ (msPhase2 I ts st).etracks ∧
        lookupG (msPhase2 I ts st).pvars t.src.pid = some u ∧
        lookupG (msPhase2 I ts st).pvars t.dst.pid = some v := by
  intro ts
  induction ts with
  | nil =>
      intro st t h
      exact absurd h (List.not_mem_nil t)
  | cons t0 rest ih =>
      intro st t hmem hns
      simp only [msPhase2]
      by_cases hskip : t0.src.res = PRes.pe ∧ (t0.src.x, t0.src.y) ∉ I
      · rw [if_pos hskip]
        rcases List.mem_cons.mp hmem with hc | hc
        · subst hc
          exact absurd hskip hns
        · exact ih st t hc hns
      · rw [if_neg hskip]
        rcases List.mem_cons.mp hmem with hc | hc
        · subst hc
          obtain ⟨_, _, _, g1d, g1e⟩ := getOrAddNode_state st t.src
          obtain ⟨_, _, _, g2d, g2e⟩ :=
            getOrAddNode_state (getOrAddNode st t.src).1 t.dst
          obtain ⟨pp, pn, pe2, pt⟩ := msPhase2_pres I rest
            { (getOrAddNode (getOrAddNode st t.src).1 t.dst).1 with
              edgeCount :=
                (getOrAddNode (getOrAddNode st t.src).1 t.dst).1.edgeCount + 1
              edges :=
                ((getOrAddNode (getOrAddNode st t.src).1 t.dst).1.edgeCount,
                  (getOrAddNode st t.src).2,
                  (getOrAddNode (getOrAddNode st t.src).1 t.dst).2) ::
                  (getOrAddNode (getOrAddNode st t.src).1 t.dst).1.edges
              etracks :=
                ((getOrAddNode (getOrAddNode st t.src).1 t.dst).1.edgeCount, t) ::
                  (getOrAddNode (getOrAddNode st t.src).1 t.dst).1.etracks }
          refine ⟨(getOrAddNode (getOrAddNode st t.src).1 t.dst).1.edgeCount,
            (getOrAddNode st t.src).2,
            (getOrAddNode (getOrAddNode st t.src).1 t.dst).2,
            ?_, ?_, ?_, ?_⟩
          · exact pe2 _ (List.mem_cons_self _ _)
          · exact pt _ (List.mem_cons_self _ _)
          · exact pp _ _ (g2e _ _ g1d)
          · exact pp _ _ g2d
        · exact ih _ t hc hns

/-- C8: build_msgraph adds, for every used PE location (x, y) of the
grid traversal lying in PlacementState.I, three nodes named (x,y)PE_a,
(x,y)PE_b, (x,y)PE_out bound to sinks[(x,y,a)], sinks[(x,y,b)] and
sources[(x,y,out)]; it records no edge for a track whose source port
is a PE port at an unused location; and for every other track it
allocates endpoint nodes on demand, adds one directed edge between
them, and records the edge-to-Track reverse mapping. -/
theorem build_msgraph_spec (lay : RLayer) (I : List (Int × Int))
    (cols rows : Nat) (st : MSState)
    (h : buildMsgraph lay I cols rows = Except.ok st)
    (hnd : (msPhase1Pids lay I (gridList cols rows)).Nodup) :
    (∀ x y : Nat, x < cols → y < rows → ((x : Int), (y : Int)) ∈ I →
      ∃ pa pb po na nb no,
        lookupG lay.sinks
          [KElem.num (x : Int), KElem.num (y : Int), KElem.str ("a")] = some pa ∧
        lookupG lay.sinks
          [KElem.num (x : Int), KElem.num (y : Int), KElem.str ("b")] = some pb ∧
        lookupG lay.sources
          [KElem.num (x : Int), KElem.num (y : Int), KElem.str ("out")] = some po ∧
        lookupG st.pvars pa.pid = some na ∧
        (na, peNodeName (x : Int) (y : Int) ("a")) ∈ st.nodes ∧
        lookupG st.pvars pb.pid = some nb ∧
        (nb, peNodeName (x : Int) (y : Int) ("b")) ∈ st.nodes ∧
        lookupG st.pvars po.pid = some no ∧
        (no, peNodeName (x : Int) (y : Int) ("out")) ∈ st.nodes) ∧
    (∀ t ∈ lay.tracks, t.src.res = PRes.pe → (t.src.x, t.src.y) ∉ I →
      ∀ e, (e, t) ∉ st.etracks) ∧
    (∀ t ∈ lay.tracks, ¬(t.src.res = PRes.pe ∧ (t.src.x, t.src.y) ∉ I) →
      ∃ e u v, (e, u, v) ∈ st.edges ∧ (e, t) ∈ st.etracks ∧
        lookupG st.pvars t.src.pid = some u ∧
        lookupG st.pvars t.dst.pid = some v) := by
  unfold buildMsgraph at h
  cases hp1 : msPhase1 lay I (gridList cols rows) initMS with
  | error s => rw [hp1] at h; exact Except.noConfusion h
  | ok st1 =>
      rw [hp1] at h
      have hst : msPhase2 I lay.tracks st1 = st := by
        simpa using h
      refine ⟨?_, ?_, ?_⟩
      · intro x y hx hy hI
        obtain ⟨pa, pb, po, na, nb, no2, h1, h2, h3, h4, h5, h6, h7, h8, h9⟩ :=
          msPhase1_main lay I (gridList cols rows) initMS st1 hp1 hnd
            (x : Int) (y : Int) (mem_gridList hx hy) hI
        obtain ⟨pp, pn, _, _⟩ := msPhase2_pres I lay.tracks st1
        rw [← hst]
        exact ⟨pa, pb, po, na, nb, no2, h1, h2, h3,
          pp _ _ h4, pn _ h5, pp _ _ h6, pn _ h7, pp _ _ h8, pn _ h9⟩
      · intro t _ hres hni e hmem
        rw [← hst] at hmem
        rcases msPhase2_etracks_src I lay.tracks st1 e t hmem with h2 | ⟨_, h3⟩
        · rw [(msPhase1_etracks lay I _ _ _ hp1).1] at h2
          exact absurd h2 (List.not_mem_nil _)
        · exact h3 ⟨hres, hni⟩
      · intro t hmem hns
        rw [← hst]
        exact msPhase2_emits I lay.tracks st1 t hmem hns

/-- Example fabric port bound as PE input a of tile (0,0). -/
def egPortA8 : FPort :=
  { pid := 20, x := 0, y := 0, res := PRes.pe, pname := "(0, 0)PE_i[a]" }

/-- Example fabric port bound as PE input b of tile (0,0). -/
def egPortB8 : FPort :=
  { pid := 21, x := 0, y := 0, res := PRes.pe, pname := "(0, 0)PE_i[b]" }

/-- Example fabric port bound as PE output of tile (0,0). -/
def egPortO8 : FPort :=
  { pid := 22, x := 0, y := 0, res := PRes.pe, pname := "(0, 0)PE_o[out]" }

/-- Example used-locations set: just (0,0). -/
def egI8 : List (Int × Int) := [(0, 0)]

/-- Example 16-bit layer for a one-tile fabric with no tracks. -/
def egLayer8 : RLayer :=
  { sources := [([KElem.num 0, KElem.num 0, KElem.str ("out")], egPortO8)]
    sinks := [([KElem.num 0, KElem.num 0, KElem.str ("a")], egPortA8),
              ([KElem.num 0, KElem.num 0, KElem.str ("b")], egPortB8)]
    tracks := [] }

/-- Witness for C8 on the one-tile fabric: all three PE nodes exist and
are bound to the right ports. -/
theorem build_msgraph_spec_witness :
    ∃ st, buildMsgraph egLayer8 egI8 1 1 = Except.ok st ∧
      ∃ pa pb po na nb no,
        lookupG egLayer8.sinks
          [KElem.num 0, KElem.num 0, KElem.str ("a")] = some pa ∧
        lookupG egLayer8.sinks
          [KElem.num 0, KElem.num 0, KElem.str ("b")] = some pb ∧
        lookupG egLayer8.sources
          [KElem.num 0, KElem.num 0, KElem.str ("out")] = some po ∧
        lookupG st.pvars pa.pid = some na ∧
        (na, peNodeName 0 0 ("a")) ∈ st.nodes ∧
        lookupG st.pvars pb.pid = some nb ∧
        (nb, peNodeName 0 0 ("b")) ∈ st.nodes ∧
        lookupG st.pvars po.pid = some no ∧
        (no, peNodeName 0 0 ("out")) ∈ st.nodes := by
  obtain ⟨st, hst⟩ : ∃ st, buildMsgraph egLayer8 egI8 1 1 = Except.ok st :=
    ⟨_, rfl⟩
  exact ⟨st, hst, (build_msgraph_spec egLayer8 egI8 1 1 st hst (by decide)).1
    0 0 (by decide) (by decide) (by decide)⟩

/-- A concrete two-driver configuration: two distinct 16-bit nets, with
distinct sources and distinct tracks, whose tracks both end at port 200. -/
def twoDriverNetA : MNet :=
  { nid := 0, srcMid := 10, width := 16, path := [⟨0, 100, 200⟩] }

/-- Second net of the two-driver configuration. -/
def twoDriverNetB : MNet :=
  { nid := 1, srcMid := 11, width := 16, path := [⟨1, 101, 200⟩] }

/-- C1 (code bug evidence): on a two-driver configuration — two distinct
nets whose tracks share the destination port 200 while their drivers
differ — route_model_reader returns normally and records both drivers,
instead of failing the intended assertion: the membership test
`track in invariant_check` looks for the Track object, but the dict is
keyed by destination Ports, so it is always false.  Moreover the reader
returns normally on every input whatsoever. -/
theorem route_model_reader_two_drivers_no_assert :
    (twoDriverNetA.path.map MTrack.dstPid = [200] ∧
     twoDriverNetB.path.map MTrack.dstPid = [200] ∧
     twoDriverNetA.srcMid ≠ twoDriverNetB.srcMid ∧
     twoDriverNetA.path ≠ twoDriverNetB.path ∧
     routeModelReader [twoDriverNetA, twoDriverNetB] =
       Except.ok
         { invMap := [(Sum.inr 200, 11), (Sum.inr 200, 10)]
           rstate := [(1, (200, 101, 16)), (0, (200, 100, 16))] }) ∧
    (∀ nets : List MNet, ∃ st, routeModelReader nets = Except.ok st) := by
  constructor
  · exact ⟨rfl, rfl, by decide, by decide, by rfl⟩
  · intro nets
    exact rmrNets_ok _ nets (fun p hp => absurd hp (List.not_mem_nil p))

end PnR
